import Mathlib

/-!
Verification of the resilient data-acquisition pipeline of the `lidaxiao`
repository (module `crawler.py`) against its natural-language specification.

The Python source is shallowly embedded as executable Lean definitions:

* Python strings are modelled as lists of characters (`Str`); the substring
  test `pat in s` is modelled by the scanner `hasSub`.
* Python `float` values are modelled as IEEE binary64: `float(str)` rounds
  the exact decimal value `decMant / decScale` of a token to the nearest
  double, ties to even, and a float-times-int product is rounded the same
  way (`rndPos`).  Doubles are 53-bit mantissas with an unbounded exponent
  (`F64`), which coincides with binary64 on the whole normal range the
  statistics tokens inhabit (overflow and subnormals are out of scope).
  `int(x)` on a nonnegative double is truncation toward zero (`f64Trunc`).
* Unix timestamps are modelled as integers (whole seconds); the embedding
  works in a fixed timezone (UTC): `datetime.fromtimestamp`,
  `datetime.timestamp` and `datetime.now` are all interpreted in that same
  fixed zone, which is how the source uses them (one consistent local zone).
* The ambient clock (`datetime.datetime.now()` / `time.time()`) is passed
  explicitly as a `now` argument to every function that reads it.
* `timedelta` overflow (only reachable for relative expressions naming more
  than about 10^10 hours) is not modelled; all claims concern small values.
-/

namespace Crawler

set_option maxRecDepth 16384

/-- Python strings, modelled as lists of characters. -/
abbrev Str := List Char

/-- `pat in s` on Python strings: `pat` occurs as a contiguous substring
(the empty pattern is contained in every string, as in Python). -/
def hasSub (pat : Str) : Str → Bool
  | [] => pat.isEmpty
  | c :: rest => pat.isPrefixOf (c :: rest) || hasSub pat rest

/-- Python whitespace characters recognised by `str.strip()` /
leading-whitespace skipping of `int()` (ASCII subset). -/
def isSpaceChar (c : Char) : Bool :=
  c = ' ' || c = '\t' || c = '\n' || c = '\r' || c = '\x0b' || c = '\x0c'

/-- `str.strip()`. -/
def trim (s : Str) : Str :=
  ((s.dropWhile isSpaceChar).reverse.dropWhile isSpaceChar).reverse

/-- Numeric value of a list of ASCII digit characters (most significant
first); `[]` yields `0`. -/
def natOfDigits (s : Str) : Nat :=
  s.foldl (fun a c => 10 * a + (c.toNat - 48)) 0

/-- Mantissa of a decimal token: its digits with the dot removed, e.g.
`3.5 ↦ 35`. -/
def decMant (s : Str) : Nat := natOfDigits (s.filter (fun c => c ≠ '.'))

/-- Scale of a decimal token: `10 ^ (number of fractional digits)`. -/
def decScale (s : Str) : Nat :=
  10 ^ ((s.dropWhile (fun c => c ≠ '.')).drop 1).length

/-- Whether Python `float(s)` succeeds on a token made of digits, dots and
CJK characters (all that can reach it in `_parse_stats_number`): success
exactly on a nonempty string of digits with at most one dot and at least
one digit; anything else raises `ValueError`. -/
def decOK (s : Str) : Bool :=
  !s.isEmpty && s.all (fun c => c.isDigit || c = '.') &&
    s.count '.' ≤ 1 && s.any (fun c => c.isDigit)

/-- The exact rational value of a decimal token (specification-level view
of the Python float). -/
def decValue (s : Str) : ℚ := (decMant s : ℚ) / (decScale s : ℚ)

/-- Truncation toward zero, the behaviour of Python `int()` on a float
(here on an exact rational). -/
def ratTrunc (q : ℚ) : Int := if 0 ≤ q then ⌊q⌋ else -⌊-q⌋

/-- Fuel-bounded binary length: `bitlenF f n` is the number of binary
digits of `n` (Python's `int.bit_length`), correct whenever `n < 2 ^ f`. -/
def bitlenF : Nat → Nat → Nat
  | 0, _ => 0
  | f + 1, n => if n = 0 then 0 else bitlenF f (n / 2) + 1

/-- Binary length of `n`, correct for all `n < 2 ^ 4400` — far beyond every
quantity the stats parser can form inside the binary64 range after the
`2 ^ 1200` pre-shift used below. -/
def bitlen (n : Nat) : Nat := bitlenF 4400 n

/-- A nonnegative IEEE binary64 value with unbounded exponent range:
`M * 2 ^ ex` with `2 ^ 52 ≤ M < 2 ^ 53` for nonzero values and `M = 0` for
zero.  On the normal double range (which contains every magnitude the
statistics tokens attain) this is exactly binary64. -/
structure F64 where
  M : Nat
  ex : Int
  deriving DecidableEq

/-- Round the positive rational `num / den` to the nearest binary64, ties
to even — the rounding CPython performs both in `float(str)` and in a float
multiplication.  `L` is the binade exponent of `num * 2 ^ 1200 / den` (the
pre-shift keeps the quotient positive for every scale a token can carry);
the mantissa is the correctly rounded value of `num / den` scaled into
`[2 ^ 52, 2 ^ 53)`. -/
def rndPos (num den : Nat) : F64 :=
  let L := bitlen (num * 2 ^ 1200 / den) - 1
  let NN := num * 2 ^ 1252
  let DD := den * 2 ^ L
  let q := NN / DD
  let r := NN % DD
  let M0 := if 2 * r > DD then q + 1 else if 2 * r = DD then q + q % 2 else q
  if M0 = 2 ^ 53 then ⟨2 ^ 52, (L : Int) - 1251⟩ else ⟨M0, (L : Int) - 1252⟩

/-- `float(s)` for a decimal token with mantissa `m` and scale `den`. -/
def f64OfDec (m den : Nat) : F64 := if m = 0 then ⟨0, 0⟩ else rndPos m den

/-- IEEE multiplication of a nonnegative double by a natural number that is
itself exactly representable (every multiplier here is `≤ 10 ^ 8 < 2 ^ 53`):
the exact product, rounded to nearest-even. -/
def f64MulNat (f : F64) (k : Nat) : F64 :=
  if f.M = 0 ∨ k = 0 then ⟨0, 0⟩
  else
    let g := rndPos (f.M * k) 1
    ⟨g.M, g.ex + f.ex⟩

/-- `int(x)` on a nonnegative double: truncation toward zero. -/
def f64Trunc (f : F64) : Nat :=
  if 0 ≤ f.ex then f.M * 2 ^ f.ex.toNat else f.M / 2 ^ (-f.ex).toNat

/-- `int(float(s) * k)` for a decimal token `s` and natural multiplier `k`,
with both the decimal-to-double conversion and the product rounded to the
nearest binary64, as the source's IEEE arithmetic does. -/
def decTimes (s : Str) (k : Nat) : Int :=
  (f64Trunc (f64MulNat (f64OfDec (decMant s) (decScale s)) k) : Nat)

/-- The character class kept by the `re.sub` in `_parse_stats_number`:
digits, the dot, and CJK ideographs U+4E00–U+9FFF (the five unit characters
of the original class are inside that range). -/
def statsKeepChar (c : Char) : Bool :=
  c.isDigit || c = '.' || (0x4E00 ≤ c.toNat && c.toNat ≤ 0x9FFF)

/-- First maximal run of `[\d.]+` characters in `s` (the
`re.search(r'[\d.]+', text)` fallback of `_parse_stats_number`). -/
def firstNumRun : Str → Option Str
  | [] => none
  | c :: rest =>
    if c.isDigit || c = '.' then
      some ((c :: rest).takeWhile (fun x => x.isDigit || x = '.'))
    else
      firstNumRun rest

/-- `PlaywrightBrowserSimulator._parse_stats_number`: strip everything but
digits, dots and CJK; then the `万 / 千 / 百 / 亿` unit branches (the
double value of the token times 10^4 / 10^3 / 10^2 / 10^8, truncated to
int), else the first
plain numeric run.  A `ValueError` from `float` (or no match) yields `0`. -/
def parseStatsNumber (text : Str) : Int :=
  let t := text.filter statsKeepChar
  if '万' ∈ t then
    let n := t.filter (fun c => c ≠ '万')
    if !n.isEmpty && decOK n then decTimes n 10000 else 0
  else if '千' ∈ t then
    let n := t.filter (fun c => c ≠ '千')
    if !n.isEmpty && decOK n then decTimes n 1000 else 0
  else if '百' ∈ t then
    let n := t.filter (fun c => c ≠ '百')
    if !n.isEmpty && decOK n then decTimes n 100 else 0
  else if '亿' ∈ t then
    let n := t.filter (fun c => c ≠ '亿')
    if !n.isEmpty && decOK n then decTimes n 100000000 else 0
  else
    match firstNumRun t with
    | some run => if decOK run then decTimes run 1 else 0
    | none => 0

example : parseStatsNumber ( "5万".data ) = 50000 := by decide
example : parseStatsNumber ( "3千".data ) = 3000 := by decide
example : parseStatsNumber ( "2百".data ) = 200 := by decide
example : parseStatsNumber ( "1亿".data ) = 100000000 := by decide
example : parseStatsNumber ( "3.5万".data ) = 35000 := by decide
example : parseStatsNumber ( "12播放".data ) = 12 := by decide
example : parseStatsNumber ( "..".data ) = 0 := by decide

/-- One step of `_extract_view_count_from_title`: leftmost regex match of
`(\d+\.?\d*)` immediately followed by the unit character `u`, returning the
numeric group.  Backtracking of the Python regex engine reduces to: at a
match start, take the maximal digit run, then either the unit follows
directly, or a dot plus a (possibly empty) second digit run does. -/
def searchNumUnit (u : Char) : Str → Option Str
  | [] => none
  | c :: rest =>
    if c.isDigit then
      let d1 := (c :: rest).takeWhile Char.isDigit
      let t1 := (c :: rest).dropWhile Char.isDigit
      match t1 with
      | '.' :: t2 =>
        let d2 := t2.takeWhile Char.isDigit
        let t3 := t2.dropWhile Char.isDigit
        if t3.head? = some u then some (d1 ++ '.' :: d2)
        else searchNumUnit u rest
      | x :: _ =>
        if x = u then some d1 else searchNumUnit u rest
      | [] => searchNumUnit u rest
    else
      searchNumUnit u rest

/-- `PlaywrightBrowserSimulator._extract_view_count_from_title`: patterns
`(\d+\.?\d*)万 / 千 / 亿 / 百` tried in that order on the title; the numeric
group times 10^4 / 10^3 / 10^8 / 10^2; `0` if nothing matches.  (`float` on
a matched group can only fail on no-digit groups, which the pattern
excludes, so the `except` branch is unreachable.) -/
def extractViewCountFromTitle (title : Str) : Int :=
  match searchNumUnit '万' title with
  | some n => decTimes n 10000
  | none =>
    match searchNumUnit '千' title with
    | some n => decTimes n 1000
    | none =>
      match searchNumUnit '亿' title with
      | some n => decTimes n 100000000
      | none =>
        match searchNumUnit '百' title with
        | some n => decTimes n 100
        | none => 0

example : extractViewCountFromTitle ( "李大霄4.0万播放".data ) = 40000 := by decide
example : extractViewCountFromTitle ( "no number".data ) = 0 := by decide

/-! ### Calendar and clock model

`datetime` dates are triples of integers; instants (`datetime.datetime`)
are a date plus a second-of-day.  Timestamps are seconds since the Unix
epoch in the fixed zone of the embedding.  The civil-calendar conversions
use the standard era-based algorithms (Gregorian, proleptic), which is the
arithmetic `datetime` implements. -/

/-- A calendar date (`datetime.date`). -/
structure DateT where
  y : Int
  m : Int
  d : Int
  deriving DecidableEq

/-- An instant (`datetime.datetime`): a date plus seconds within the day. -/
structure DateTimeT where
  date : DateT
  sec : Int
  deriving DecidableEq

/-- Gregorian leap year. -/
def isLeap (y : Int) : Bool := y % 4 == 0 && (y % 100 != 0 || y % 400 == 0)

/-- Length of a month. -/
def daysInMonth (y m : Int) : Int :=
  if m = 2 then (if isLeap y then 29 else 28)
  else if m = 4 ∨ m = 6 ∨ m = 9 ∨ m = 11 then 30
  else 31

/-- Whether `datetime(y, m, d)` succeeds (`MINYEAR = 1`, `MAXYEAR = 9999`). -/
def validDateB (y m d : Int) : Bool :=
  decide (1 ≤ y) && decide (y ≤ 9999) && decide (1 ≤ m) && decide (m ≤ 12) &&
    decide (1 ≤ d) && decide (d ≤ daysInMonth y m)

/-- Days since 1970-01-01 of a civil date (era-based Gregorian algorithm;
integer division here is floor division since all divisors are positive). -/
def daysFromCivil (dt : DateT) : Int :=
  let y := if dt.m ≤ 2 then dt.y - 1 else dt.y
  let era := y / 400
  let yoe := y - era * 400
  let mp := (dt.m + 9) % 12
  let doy := (153 * mp + 2) / 5 + dt.d - 1
  let doe := yoe * 365 + yoe / 4 - yoe / 100 + doy
  era * 146097 + doe - 719468

/-- Civil date of a number of days since 1970-01-01 (inverse of
`daysFromCivil`). -/
def civilFromDays (z0 : Int) : DateT :=
  let z := z0 + 719468
  let era := z / 146097
  let doe := z - era * 146097
  let yoe := (doe - doe / 1460 + doe / 36524 - doe / 146096) / 365
  let y := yoe + era * 400
  let doy := doe - (365 * yoe + yoe / 4 - yoe / 100)
  let mp := (5 * doy + 2) / 153
  let d := doy - (153 * mp + 2) / 5 + 1
  let m := mp + (if mp < 10 then 3 else -9)
  ⟨y + (if m ≤ 2 then 1 else 0), m, d⟩

/-- `.timestamp()` of a midnight instant (UTC model). -/
def tsOfDate (d : DateT) : Int := 86400 * daysFromCivil d

/-- `.timestamp()` of an instant (UTC model). -/
def tsOfDT (x : DateTimeT) : Int := 86400 * daysFromCivil x.date + x.sec

/-- `datetime.fromtimestamp(t).date()` (UTC model); `fromtimestamp` floors
toward past days for negative timestamps, i.e. floor division. -/
def dateOfTs (t : Int) : DateT := civilFromDays (t / 86400)

/-- Strict `<` on dates (lexicographic, as `datetime.date` compares). -/
def dateLtB (a b : DateT) : Bool :=
  decide (a.y < b.y) ||
    (a.y == b.y && (decide (a.m < b.m) || (a.m == b.m && decide (a.d < b.d))))

/-- `≤` on dates.  The source compares the `"%Y-%m-%d"`-formatted strings
`start_date <= pubdate <= end_date`; for zero-padded four-digit-year dates
string order coincides with this lexicographic date order. -/
def dateLeB (a b : DateT) : Bool := dateLtB a b || a == b

/-- Strict `<` on instants (as `datetime.datetime` compares). -/
def dtLtB (a b : DateTimeT) : Bool :=
  dateLtB a.date b.date || (a.date == b.date && decide (a.sec < b.sec))

example : daysFromCivil ⟨1970, 1, 1⟩ = 0 := by decide
example : daysFromCivil ⟨2024, 1, 15⟩ = 19737 := by decide
example : civilFromDays 19737 = ⟨2024, 1, 15⟩ := by decide
example : civilFromDays (-1) = ⟨1969, 12, 31⟩ := by decide
example : isLeap 2024 = true ∧ isLeap 2023 = false ∧ isLeap 1900 = false ∧
    isLeap 2000 = true := by decide

/-! ### `strptime` model

Only the formats the source actually passes to `datetime.strptime` are
modelled.  In all of them, fields are separated by non-digit separators, so
CPython's regex-based field matching reduces to: each field consumes a full
maximal digit run, which must have the field's length (exactly 4 for `%Y`,
1–2 for `%m/%d/%H/%M/%S`) and lie in the field's range; then the parsed
date must be constructible (`validDateB`), and the whole string must be
consumed. -/

/-- Split a leading maximal digit run. -/
def splitRun (s : Str) : Str × Str :=
  (s.takeWhile Char.isDigit, s.dropWhile Char.isDigit)

/-- Parse a 1–2 digit field whose value must lie in `[lo, hi]`; returns the
value and the rest. -/
def parseField2 (lo hi : Nat) (s : Str) : Option (Nat × Str) :=
  let (r, t) := splitRun s
  if 1 ≤ r.length ∧ r.length ≤ 2 ∧ lo ≤ natOfDigits r ∧ natOfDigits r ≤ hi then
    some (natOfDigits r, t)
  else none

/-- Parse `%Y sep %m sep %d`, returning year, month, day and the rest. -/
def parseYMD (sep : Char) (s : Str) : Option (Int × Int × Int × Str) :=
  let (ry, t1) := splitRun s
  if ry.length = 4 then
    match t1 with
    | c1 :: t2 =>
      if c1 = sep then
        match parseField2 1 12 t2 with
        | some (m, t3) =>
          match t3 with
          | c2 :: t4 =>
            if c2 = sep then
              match parseField2 1 31 t4 with
              | some (d, t5) => some ((natOfDigits ry : Int), (m : Int), (d : Int), t5)
              | none => none
            else none
          | [] => none
        | none => none
      else none
    | [] => none
  else none

/-- Trailing time-of-day part of a format. -/
inductive TimeTail where
  | dateOnly : TimeTail
  | toMinute : TimeTail
  | toSecond : TimeTail

/-- Parse the time tail (`''`, `' %H:%M'` or `' %H:%M:%S'`), requiring the
whole remainder to be consumed; returns seconds within the day. -/
def parseTimeTail : TimeTail → Str → Option Int
  | .dateOnly, [] => some 0
  | .dateOnly, _ => none
  | .toMinute, ' ' :: t =>
    (match parseField2 0 23 t with
     | some (h, ':' :: t2) =>
       (match parseField2 0 59 t2 with
        | some (mi, []) => some ((h : Int) * 3600 + (mi : Int) * 60)
        | _ => none)
     | _ => none)
  | .toMinute, _ => none
  | .toSecond, ' ' :: t =>
    (match parseField2 0 23 t with
     | some (h, ':' :: t2) =>
       (match parseField2 0 59 t2 with
        | some (mi, ':' :: t3) =>
          (match parseField2 0 59 t3 with
           | some (sec, []) => some ((h : Int) * 3600 + (mi : Int) * 60 + (sec : Int))
           | _ => none)
        | _ => none)
     | _ => none)
  | .toSecond, _ => none

/-- `datetime.strptime(s, fmt)` for the format family
`%Y sep %m sep %d [time tail]`: field matching, full consumption, and date
constructibility. -/
def strptimeDT (sep : Char) (fmt : TimeTail) (s : Str) : Option DateTimeT :=
  match parseYMD sep s with
  | some (y, m, d, rest) =>
    match parseTimeTail fmt rest with
    | some secs => if validDateB y m d then some ⟨⟨y, m, d⟩, secs⟩ else none
    | none => none
  | none => none

example : strptimeDT '-' .dateOnly ( "2024-01-15".data ) =
    some ⟨⟨2024, 1, 15⟩, 0⟩ := by decide
example : strptimeDT '-' .dateOnly ( "2023-02-29".data ) = none := by decide
example : strptimeDT '-' .dateOnly ( "01-15".data ) = none := by decide
example : strptimeDT '-' .toMinute ( "2024-1-5 7:30".data ) =
    some ⟨⟨2024, 1, 5⟩, 27000⟩ := by decide
example : strptimeDT '-' .dateOnly ( "2024-01-15x".data ) = none := by decide

/-! ### Time-string parsing (`_parse_time_string_ultra_fast` and
`_parse_time_string`) -/

/-- The relative-time marker `小时前` (hours ago). -/
def hoursAgoM : Str := "小时前".data

/-- The relative-time marker `分钟前` (minutes ago). -/
def minutesAgoM : Str := "分钟前".data

/-- The relative-time marker `天前` (days ago). -/
def daysAgoM : Str := "天前".data

/-- The relative-time marker `个月前` (months ago). -/
def monthsAgoM : Str := "个月前".data

/-- The relative-time marker `年前` (years ago). -/
def yearsAgoM : Str := "年前".data

/-- Value of the first maximal digit run anywhere in the string (the
character loop the ultra-fast parser uses instead of a regex). -/
def firstDigitRun : Str → Option Nat
  | [] => none
  | c :: rest =>
    if c.isDigit then some (natOfDigits ((c :: rest).takeWhile Char.isDigit))
    else firstDigitRun rest

/-- Python `int(s)` on a string: optional surrounding whitespace, optional
sign, nonempty digits (underscore grouping not modelled — it does not occur
in the attribute values at issue). -/
def parseIntPy (s : Str) : Option Int :=
  match trim s with
  | '-' :: ds =>
    if !ds.isEmpty && ds.all Char.isDigit then some (-(natOfDigits ds : Int))
    else none
  | '+' :: ds =>
    if !ds.isEmpty && ds.all Char.isDigit then some ((natOfDigits ds : Int))
    else none
  | ds =>
    if !ds.isEmpty && ds.all Char.isDigit then some ((natOfDigits ds : Int))
    else none

/-- The absolute-date tail of `_parse_time_string_ultra_fast`: if the
(stripped) string mentions `2024` or `2023` and positions 4 and 7 of its
first ten characters are dashes, parse those ten characters as
`%Y-%m-%d`; every failure yields `0`. -/
def ultraAbsolute (s : Str) : Int :=
  if hasSub ( "2024".data ) s || hasSub ( "2023".data ) s then
    if s.length ≥ 10 && s.getD 4 ' ' == '-' && s.getD 7 ' ' == '-' then
      match strptimeDT '-' .dateOnly (s.take 10) with
      | some dt => tsOfDT dt
      | none => 0
    else 0
  else 0

/-- `PlaywrightBrowserSimulator._parse_time_string_ultra_fast`: strip; on a
relative marker, subtract the first digit run (hours/minutes/days) from
`now`; otherwise (also when a marker is present but no digit exists) try
the `2024`/`2023` absolute-date shape; else `0`. -/
def parseTimeStringUltraFast (now : DateTimeT) (raw : Str) : Int :=
  let s := trim raw
  if hasSub hoursAgoM s then
    match firstDigitRun s with
    | some n => tsOfDT now - 3600 * (n : Int)
    | none => ultraAbsolute s
  else if hasSub minutesAgoM s then
    match firstDigitRun s with
    | some n => tsOfDT now - 60 * (n : Int)
    | none => ultraAbsolute s
  else if hasSub daysAgoM s then
    match firstDigitRun s with
    | some n => tsOfDT now - 86400 * (n : Int)
    | none => ultraAbsolute s
  else ultraAbsolute s

/-- Leftmost match of a digit run immediately followed by the given
marker, as in `re.search` of `(\d+)` plus the marker. -/
def searchNumThenMarker (marker : Str) : Str → Option Nat
  | [] => none
  | c :: rest =>
    if c.isDigit then
      let run := (c :: rest).takeWhile Char.isDigit
      let after := (c :: rest).dropWhile Char.isDigit
      if marker.isPrefixOf after then some (natOfDigits run)
      else searchNumThenMarker marker rest
    else searchNumThenMarker marker rest

/-- The digit character for `k` between 0 and 9. -/
def digitChar (k : Nat) : Char := ( "0123456789".data ).getD k '0'

/-- The interpolation of the current year into the year-less formats: its
four decimal digits (every year reaching this code path lies in 1000–9999,
where the interpolated text has exactly four digits). -/
def yearStr (y : Int) : Str :=
  [digitChar (y.toNat / 1000 % 10), digitChar (y.toNat / 100 % 10),
   digitChar (y.toNat / 10 % 10), digitChar (y.toNat % 10)]

/-- `time_str.replace('/', '-')`. -/
def slashToDash (s : Str) : Str := s.map (fun c => if c = '/' then '-' else c)

/-- The year-less adjustment of `_parse_time_string`: a parsed date in the
future relative to `now` is moved to the previous year via
`replace(year=current_year - 1)`; if that date does not exist the
`ValueError` propagates to the format loop (`none` = try the next format). -/
def adjustYearless (now : DateTimeT) (dt : DateTimeT) : Option Int :=
  if dtLtB now dt then
    if validDateB (dt.date.y - 1) dt.date.m dt.date.d then
      some (tsOfDT ⟨⟨dt.date.y - 1, dt.date.m, dt.date.d⟩, dt.sec⟩)
    else none
  else some (tsOfDT dt)

/-- Greedy one-or-two-digit group at the start of the string (group 2 of
the final fallback regex, with nothing after it to backtrack for). -/
def greedy2Digits : Str → Option Nat
  | a :: b :: _ =>
    if a.isDigit then
      if b.isDigit then some (natOfDigits [a, b]) else some (natOfDigits [a])
    else none
  | [a] => if a.isDigit then some (natOfDigits [a]) else none
  | [] => none

/-- Match of the fallback pattern — a one-or-two-digit group, a dash, and
another one-or-two-digit group — anchored at the start of `s` (with regex
backtracking: a two-digit first group not followed by a dash cannot shrink
to one digit, because the next character is then a digit; any match needs
at least three characters). -/
def tryMMDDAt : Str → Option (Nat × Nat)
  | a :: b :: c :: t =>
    if a.isDigit then
      if b.isDigit then
        if c = '-' then
          (greedy2Digits t).map (fun g2 => (natOfDigits [a, b], g2))
        else none
      else
        if b = '-' then
          (greedy2Digits (c :: t)).map (fun g2 => (natOfDigits [a], g2))
        else none
    else none
  | _ => none

/-- Leftmost match of the `MM-DD` fallback regex of `_parse_time_string`. -/
def searchMMDD : Str → Option (Nat × Nat)
  | [] => none
  | c :: rest =>
    match tryMMDDAt (c :: rest) with
    | some r => some r
    | none => searchMMDD rest

/-- First successful attempt in a list (the format loop of
`_parse_time_string`: the first format that raises no `ValueError`
returns). -/
def firstSome : List (Option Int) → Option Int
  | [] => none
  | some x :: _ => some x
  | none :: rest => firstSome rest

/-- The `date_formats` loop of `_parse_time_string`, in source order:
six full formats (no year adjustment), then the four year-less formats.
A year-less format parses the current year, a dash and `s` (for the
slash family: with slashes replaced by dashes) against the corresponding
full format and then applies the future-to-previous-year adjustment; the
last two entries perform the identical operation, as in the source. -/
def dateFormatsLoop (now : DateTimeT) (s : Str) : Option Int :=
  firstSome
    [(strptimeDT '-' .toSecond s).map tsOfDT,
     (strptimeDT '-' .toMinute s).map tsOfDT,
     (strptimeDT '-' .dateOnly s).map tsOfDT,
     (strptimeDT '/' .toSecond s).map tsOfDT,
     (strptimeDT '/' .toMinute s).map tsOfDT,
     (strptimeDT '/' .dateOnly s).map tsOfDT,
     (strptimeDT '-' .toMinute (yearStr now.date.y ++ '-' :: s)).bind
       (adjustYearless now),
     (strptimeDT '-' .dateOnly (yearStr now.date.y ++ '-' :: s)).bind
       (adjustYearless now),
     (strptimeDT '-' .dateOnly
         (yearStr now.date.y ++ '-' :: slashToDash s)).bind
       (adjustYearless now),
     (strptimeDT '-' .dateOnly
         (yearStr now.date.y ++ '-' :: slashToDash s)).bind
       (adjustYearless now)]

/-- The final fallback of `_parse_time_string`: find `MM-DD` digits, build
the date in the current year, adjust future dates to the previous year;
any `ValueError` yields `0`. -/
def mmddFallback (now : DateTimeT) (s : Str) : Int :=
  match searchMMDD s with
  | some (m, d) =>
    if validDateB now.date.y (m : Int) (d : Int) then
      match adjustYearless now ⟨⟨now.date.y, (m : Int), (d : Int)⟩, 0⟩ with
      | some ts => ts
      | none => 0
    else 0
  | none => 0

/-- The non-relative tail of `_parse_time_string`: the format loop, then
the `MM-DD` regex fallback, then `0`. -/
def parseTimeStringRest (now : DateTimeT) (s : Str) : Int :=
  match dateFormatsLoop now s with
  | some ts => ts
  | none => mmddFallback now s

/-- `PlaywrightBrowserSimulator._parse_time_string`: strip; relative
expressions (`N 小时/分钟/天/个月/年 前`, the digits taken adjacent to the
marker) subtract from `now` (months ≈ 30 days, years ≈ 365 days, as in the
source); a present marker without adjacent digits falls through, skipping
the remaining relative branches; then the absolute-format loop and the
`MM-DD` fallback. -/
def parseTimeString (now : DateTimeT) (raw : Str) : Int :=
  let s := trim raw
  if hasSub hoursAgoM s then
    match searchNumThenMarker hoursAgoM s with
    | some n => tsOfDT now - 3600 * (n : Int)
    | none => parseTimeStringRest now s
  else if hasSub minutesAgoM s then
    match searchNumThenMarker minutesAgoM s with
    | some n => tsOfDT now - 60 * (n : Int)
    | none => parseTimeStringRest now s
  else if hasSub daysAgoM s then
    match searchNumThenMarker daysAgoM s with
    | some n => tsOfDT now - 86400 * (n : Int)
    | none => parseTimeStringRest now s
  else if hasSub monthsAgoM s then
    match searchNumThenMarker monthsAgoM s with
    | some n => tsOfDT now - 30 * 86400 * (n : Int)
    | none => parseTimeStringRest now s
  else if hasSub yearsAgoM s then
    match searchNumThenMarker yearsAgoM s with
    | some n => tsOfDT now - 365 * 86400 * (n : Int)
    | none => parseTimeStringRest now s
  else parseTimeStringRest now s

/-- Noon, 2024-01-15, a sample clock reading. -/
def sampleNow : DateTimeT := ⟨⟨2024, 1, 15⟩, 43200⟩

example : parseTimeString sampleNow ( "3小时前".data ) =
    tsOfDT sampleNow - 10800 := by decide
example : parseTimeString sampleNow ( "01-10".data ) =
    tsOfDate ⟨2024, 1, 10⟩ := by decide
example : parseTimeString sampleNow ( "01-20".data ) =
    tsOfDate ⟨2023, 1, 20⟩ := by decide
example : parseTimeString sampleNow ( "01/10".data ) =
    tsOfDate ⟨2024, 1, 10⟩ := by decide
example : parseTimeString sampleNow ( "02-29".data ) = 0 := by decide
example : parseTimeString sampleNow ( "2023-12-01".data ) =
    tsOfDate ⟨2023, 12, 1⟩ := by decide
example : parseTimeStringUltraFast sampleNow ( "2023-12-01 08:00".data ) =
    tsOfDate ⟨2023, 12, 1⟩ := by decide
example : parseTimeStringUltraFast sampleNow ( "5天前".data ) =
    tsOfDT sampleNow - 5 * 86400 := by decide
example : parseTimeStringUltraFast sampleNow ( "01-10".data ) = 0 := by decide

/-! ### Listing-parser model

A `Card` carries the information the source extracts from one video-card
DOM element, field by field:

* `href`: the `href` of the first link element inside the card
  (`card.find('a', href=True)`), `none` when there is no such link;
* `imgTitle`: when the cover image
  (`div.bili-cover-card__thumbnail img, .cover img, img[alt]`) exists, the
  value of the chain `title-attribute or alt-attribute or stripped text`;
* `linkTitle`: the value of the chain
  `link title-attribute or stripped link text or empty`;
* `coverStatsView` / `coverStatsComment`: text of the first/second
  cover-stats span (`div:nth-child(1) span` / `div:nth-child(2) span`),
  `none` when absent;
* `playTexts`: stripped texts of the elements found by the secondary
  `play_selectors`, in selector order (selectors without a match, and the
  one invalid selector that raises and is skipped, contribute nothing);
* `statsSpans`: stripped texts of the generic
  `.bili-video-card__stats span, .stats span, .count span` matches;
* `titleSpans`: title attributes of `find_all('span', title=True)`, in
  document order;
* `timeElems`: per selector of the `time_selectors` list, the first match
  (selectors without a match contribute nothing), each with its
  `data-time` attribute (`[]` when absent), `title` attribute (`[]` when
  absent) and stripped text;
* `spanTexts`: stripped texts of all `find_all('span')`, in document
  order;
* `cardText`: `get_text(strip=True)` of the card (used as the fallback
  dedup key). -/

/-- One element matched by a time selector. -/
structure TimeElem where
  dataTime : Str
  titleAttr : Str
  text : Str
  deriving DecidableEq

/-- The extractable content of one video card. -/
structure Card where
  href : Option Str
  imgTitle : Option Str
  linkTitle : Str
  coverStatsView : Option Str
  coverStatsComment : Option Str
  playTexts : List Str
  statsSpans : List Str
  titleSpans : List Str
  timeElems : List TimeElem
  spanTexts : List Str
  cardText : Str
  deriving DecidableEq

/-- Gate of the first loop of `_extract_publish_timestamp_fast`: a
nonempty `span[title]` value mentioning `2024`, `2023` or a relative
marker. -/
def titleSpanGate (t : Str) : Bool :=
  !t.isEmpty && (hasSub ( "2024".data ) t || hasSub ( "2023".data ) t ||
    hasSub hoursAgoM t || hasSub minutesAgoM t || hasSub daysAgoM t)

/-- First loop of `_extract_publish_timestamp_fast`: the first gated
`span[title]` whose parsed timestamp is positive. -/
def fastStepTitleSpans (now : DateTimeT) : List Str → Option Int
  | [] => none
  | t :: rest =>
    if titleSpanGate t then
      let v := parseTimeStringUltraFast now t
      if v > 0 then some v else fastStepTitleSpans now rest
    else fastStepTitleSpans now rest

/-- Second loop of `_extract_publish_timestamp_fast`, per time-selector
element: a nonempty `data-time` that parses as an int returns directly
(whatever its sign); otherwise a nonempty `title` attribute, then the
element text, each returned only when the parsed timestamp is positive. -/
def fastStepTimeElems (now : DateTimeT) : List TimeElem → Option Int
  | [] => none
  | e :: rest =>
    let afterData :=
      if !e.titleAttr.isEmpty ∧ parseTimeStringUltraFast now e.titleAttr > 0 then
        some (parseTimeStringUltraFast now e.titleAttr)
      else if !e.text.isEmpty ∧ parseTimeStringUltraFast now e.text > 0 then
        some (parseTimeStringUltraFast now e.text)
      else fastStepTimeElems now rest
    if !e.dataTime.isEmpty then
      match parseIntPy e.dataTime with
      | some v => some v
      | none => afterData
    else afterData

/-- Gate of the final span sweep: text containing any relative marker. -/
def spanTextGate (t : Str) : Bool :=
  !t.isEmpty && (hasSub hoursAgoM t || hasSub minutesAgoM t ||
    hasSub daysAgoM t || hasSub monthsAgoM t || hasSub yearsAgoM t)

/-- Final loop of `_extract_publish_timestamp_fast`: the first gated span
text whose parsed timestamp is positive. -/
def fastStepSpanTexts (now : DateTimeT) : List Str → Option Int
  | [] => none
  | t :: rest =>
    if spanTextGate t then
      let v := parseTimeStringUltraFast now t
      if v > 0 then some v else fastStepSpanTexts now rest
    else fastStepSpanTexts now rest

/-- `PlaywrightBrowserSimulator._extract_publish_timestamp_fast`: the
three loops in order; when none returns, `int(time.time())` — the current
time — is the fallback.  (The superseded `_extract_publish_timestamp`
falls back to the current time in the same way, crawler.py line 1160.) -/
def extractPublishTimestampFast (now : DateTimeT) (card : Card) : Int :=
  match fastStepTitleSpans now card.titleSpans with
  | some v => v
  | none =>
    match fastStepTimeElems now card.timeElems with
    | some v => v
    | none =>
      match fastStepSpanTexts now card.spanTexts with
      | some v => v
      | none => tsOfDT now

/-- One parsed video record (the dict with keys
`aid / view / comment / title / created`; `pubdate` is added later by the
date-window filter of `fetch_videos_playwright`). -/
structure Video where
  aid : Int
  view : Int
  comment : Int
  title : Str
  created : Int
  pubdate : Option DateT
  deriving DecidableEq

/-- `/video/av`. -/
def avPat : Str := "/video/av".data

/-- `/video/BV`. -/
def bvPat : Str := "/video/BV".data

/-- Leftmost match of the av-permalink regex: the first occurrence of the
literal `/video/av` followed by at least one digit; the group is the
maximal digit run there. -/
def searchAv : Str → Option Nat
  | [] => none
  | c :: rest =>
    if avPat.isPrefixOf (c :: rest) then
      let tail := (c :: rest).drop avPat.length
      let run := tail.takeWhile Char.isDigit
      if !run.isEmpty then some (natOfDigits run) else searchAv rest
    else searchAv rest

/-- Python word characters (ASCII part; the BV codes at issue are ASCII). -/
def isWordChar (c : Char) : Bool := c.isAlphanum || c = '_'

/-- Leftmost match of the BV-permalink regex: the group is `BV` plus the
maximal word-character run after it (at least one). -/
def searchBv : Str → Option Str
  | [] => none
  | c :: rest =>
    if bvPat.isPrefixOf (c :: rest) then
      let tail := (c :: rest).drop bvPat.length
      let run := tail.takeWhile isWordChar
      if !run.isEmpty then some ('B' :: 'V' :: run) else searchBv rest
    else searchBv rest

/-- First positive `_parse_stats_number` among the `play_selectors`
texts (the `if temp_count > 0: view_count = temp_count; break` loop). -/
def firstPositiveStats : List Str → Int
  | [] => 0
  | t :: rest =>
    let v := parseStatsNumber t
    if v > 0 then v else firstPositiveStats rest

/-- The identity extraction of the card loop: a numeric aid from an
av-style permalink, or the stable-hash surrogate
`abs(hash(code)) % 10^9` from a BV-style one; `0` when neither regex
matches. -/
def cardAid (hash : Str → Int) (href : Str) : Int :=
  if hasSub avPat href then
    match searchAv href with
    | some n => (n : Int)
    | none => 0
  else if hasSub bvPat href then
    match searchBv href with
    | some code => (((hash code).natAbs % 1000000000 : Nat) : Int)
    | none => 0
  else 0

/-- The title extraction of the card loop: the cover image's resolved
title chain when nonempty, else the link's resolved chain. -/
def cardTitle (card : Card) : Str :=
  match card.imgTitle with
  | some t => if !t.isEmpty then t else card.linkTitle
  | none => card.linkTitle

/-- The view/comment extraction chain of the card loop, in source order:
the cover-stats view span; if zero, the secondary `play_selectors`; if
still zero, the first two generic stats spans (which also set the
comment); a still-zero comment falls back to the cover-stats comment span;
a still-zero view falls back to the magnitude-suffix scan of the title. -/
def cardStats (card : Card) : Int × Int :=
  let view0 : Int :=
    match card.coverStatsView with
    | some t => parseStatsNumber t
    | none => 0
  let view1 : Int :=
    if view0 = 0 then firstPositiveStats card.playTexts else view0
  let vc : Int × Int :=
    if view1 = 0 then
      match card.statsSpans with
      | t0 :: t1 :: _ => (parseStatsNumber t0, parseStatsNumber t1)
      | _ => (0, 0)
    else (view1, 0)
  let comment1 : Int :=
    if vc.2 = 0 then
      match card.coverStatsComment with
      | some t => parseStatsNumber t
      | none => 0
    else vc.2
  let view2 : Int :=
    if vc.1 = 0 then extractViewCountFromTitle (cardTitle card) else vc.1
  (view2, comment1)

/-- The per-card body of `_parse_videos_from_html_elements` (the `try`
block of the card loop).  `hash` is Python's process-wide string hash (a
parameter of the embedding: it is fixed within one interpreter run but
salted across runs).  Cards without a link, and cards from which no
positive `aid` is extracted, yield `none` (the `failed_count` path). -/
def parseCard (hash : Str → Int) (now : DateTimeT) (card : Card) :
    Option Video :=
  match card.href with
  | none => none
  | some href =>
    if cardAid hash href > 0 then
      some ⟨cardAid hash href, (cardStats card).1, (cardStats card).2,
        cardTitle card, extractPublishTimestampFast now card, none⟩
    else none

/-- One listing page, as seen through the two selector families of
`_parse_videos_from_html_elements`:

* `containerCards`: for each of the seven `container_selectors`, the video
  cards found inside the containers that selector matches (concatenated in
  container order) — overlapping selectors report the same card more than
  once, exactly as `video_cards.extend(...)` accumulates them;
* `fallbackCards`: for each of the six `extended_selectors`, its matches
  (used only when the first family finds nothing). -/
structure PageHtml where
  containerCards : List (List Card)
  fallbackCards : List (List Card)
  deriving DecidableEq

/-- The fallback dedup: the card's href when it has a link, else the
first 50 characters of its text, checked against one shared `seen` set. -/
def dedupeCards (seen : List Str) : List Card → List Card
  | [] => []
  | c :: rest =>
    match c.href with
    | some h =>
      if h ∈ seen then dedupeCards seen rest
      else c :: dedupeCards (h :: seen) rest
    | none =>
      let k := c.cardText.take 50
      if k ∈ seen then dedupeCards seen rest
      else c :: dedupeCards (k :: seen) rest

/-- Card collection of `_parse_videos_from_html_elements`: the container
selectors' finds, concatenated without dedup; only when they find nothing,
the extended selectors' finds, deduped by href / text key. -/
def collectCards (p : PageHtml) : List Card :=
  let primary := p.containerCards.flatten
  if !primary.isEmpty then primary
  else dedupeCards [] p.fallbackCards.flatten

/-- `PlaywrightBrowserSimulator.parse_videos_from_html` (its two
validation passes only log): parse every collected card, skipping the
failed ones. -/
def parseVideosFromHtml (hash : Str → Int) (now : DateTimeT) (p : PageHtml) :
    List Video :=
  (collectCards p).filterMap (parseCard hash now)

/-! ### Pagination controller and retry supervisor
(`fetch_videos_playwright`)

The per-page world is abstracted as a function from page numbers to
outcomes: `navFail` models `fetch_user_videos` returning `None` (the
pagination button could not be clicked), `fetchErr` models an exception
raised while fetching or parsing the page, and `content` carries the
parsed video list together with the pagination info (`has_next`,
`total_pages`) the browser reports for that page. -/

/-- Outcome of processing one page. -/
inductive PageOutcome where
  | navFail : PageOutcome
  | fetchErr : PageOutcome
  | content : List Video → Bool → Nat → PageOutcome

/-- The two date strings `start_date`, `end_date` of one call (already in
calendar form; the source receives them as ISO `"%Y-%m-%d"` strings and
compares such strings, which orders exactly like the dates). -/
structure Window where
  startDate : DateT
  endDate : DateT
  deriving DecidableEq

/-- `datetime.strptime(start_date, "%Y-%m-%d").timestamp()`. -/
def windowStartTs (w : Window) : Int := tsOfDate w.startDate

/-- `PlaywrightBrowserSimulator.check_videos_too_old`: a nonempty page on
which no video has `created >= start_timestamp`. -/
def checkVideosTooOld (w : Window) (vs : List Video) : Bool :=
  if vs.isEmpty then false
  else (vs.filter (fun v => decide (v.created ≥ windowStartTs w))).length = 0

/-- The per-record filter of the main loop: a record is kept iff its
`created` is positive and `start_date <= pubdate <= end_date` holds for
the date of its timestamp. -/
def inWindowKeep (w : Window) (v : Video) : Bool :=
  decide (v.created > 0) && dateLeB w.startDate (dateOfTs v.created) &&
    dateLeB (dateOfTs v.created) w.endDate

/-- The in-window records of one page, in order, each with its `pubdate`
field set — exactly what the loop appends to `all_videos`. -/
def validOf (w : Window) (vs : List Video) : List Video :=
  (vs.filter (inWindowKeep w)).map
    (fun v => { v with pubdate := some (dateOfTs v.created) })

/-- Mutable state of the `while page <= max_pages` loop. -/
structure LoopState where
  page : Nat
  consecFail : Nat
  consecEmpty : Nat
  acc : List Video

/-- `max_consecutive_failures` (the source sets 2; its own test suite
asserts 3 — see the discussion of the failure-bound claims). -/
def maxConsecFailures : Nat := 2

/-- `max_consecutive_empty`. -/
def maxConsecEmpty : Nat := 3

/-- `max_pages`: 30 in extended mode, 15 otherwise. -/
def maxPagesFor (extended : Bool) : Nat := if extended then 30 else 15

/-- The page loop of `fetch_videos_playwright`.  Returns the final state
and the list of pages for which a fetch was issued.  `fuel` only bounds
the recursion; every iteration advances `page` by one, so `maxPages + 1`
fuel from page 1 never runs out before `page > maxPages` stops the loop. -/
def runLoop (world : Nat → PageOutcome) (w : Window) (maxPages : Nat) :
    Nat → LoopState → LoopState × List Nat
  | 0, s => (s, [])
  | fuel + 1, s =>
    if s.page > maxPages then (s, [])
    else
      match world s.page with
      | .navFail => (s, [s.page])
      | .fetchErr =>
        let cf := s.consecFail + 1
        if cf ≥ maxConsecFailures then ({ s with consecFail := cf }, [s.page])
        else
          let r := runLoop world w maxPages fuel
            { s with consecFail := cf, page := s.page + 1 }
          (r.1, s.page :: r.2)
      | .content vs hasNext totalPages =>
        if vs.isEmpty then (s, [s.page])
        else if checkVideosTooOld w vs then (s, [s.page])
        else
          let valids := validOf w vs
          let ce := if valids.length = 0 then s.consecEmpty + 1 else 0
          let s1 : LoopState :=
            { s with acc := s.acc ++ valids, consecEmpty := ce }
          if valids.length = 0 ∧ ce ≥ maxConsecEmpty then (s1, [s.page])
          else if hasNext = false then (s1, [s.page])
          else if 1 < totalPages ∧ totalPages ≤ s.page then (s1, [s.page])
          else
            let r := runLoop world w maxPages fuel
              { s1 with consecFail := 0, page := s.page + 1 }
            (r.1, s.page :: r.2)

/-- The two exceptions one attempt can end in: the in-loop
`raise Exception("未获取到符合日期范围 ... 的任何视频数据")` when nothing was
accumulated, and the final `raise Exception("无法获取视频数据")` after all
retries. -/
inductive CrawlError where
  | noneInWindow : CrawlError
  | noData : CrawlError
  deriving DecidableEq

/-- One whole-session attempt (the body of the retry loop): run the page
loop from page 1 with fresh counters; a nonempty accumulation is
returned, an empty one raises. -/
def fetchSession (world : Nat → PageOutcome) (w : Window) (extended : Bool) :
    Except CrawlError (List Video) :=
  let acc := ((runLoop world w (maxPagesFor extended)
    (maxPagesFor extended + 1) ⟨1, 0, 0, []⟩).1).acc
  if acc.isEmpty then .error .noneInWindow else .ok acc

/-- The retry supervisor (`for attempt in range(retry_attempts)`),
counting down the remaining attempts; `i` is the current attempt index.
Returns the result together with the list of inter-attempt delays that
are slept, each `retry_delay * 1.5 ** attempt` (the delay is skipped
after the final attempt); exhaustion raises the fixed `noData` error,
whatever the last attempt's error was. -/
def supervisorGo (worlds : Nat → Nat → PageOutcome) (w : Window)
    (extended : Bool) (baseDelay : ℚ) :
    Nat → Nat → Except CrawlError (List Video) × List ℚ
  | 0, _ => (.error .noData, [])
  | rem + 1, i =>
    match fetchSession (worlds i) w extended with
    | .ok vs => (.ok vs, [])
    | .error _ =>
      if rem = 0 then (.error .noData, [])
      else
        let r := supervisorGo worlds w extended baseDelay rem (i + 1)
        (r.1, baseDelay * (3 / 2 : ℚ) ^ i :: r.2)

/-- `fetch_videos_playwright` (and `fetch_videos`, which merely
delegates): `attempts` whole-session tries over the per-attempt worlds,
with exponential backoff `baseDelay * 1.5 ** attempt` between consecutive
attempts. -/
def fetchVideosPlaywright (attempts : Nat) (worlds : Nat → Nat → PageOutcome)
    (w : Window) (extended : Bool) (baseDelay : ℚ) :
    Except CrawlError (List Video) × List ℚ :=
  supervisorGo worlds w extended baseDelay attempts 0

/-! ### Helper lemmas -/

theorem decOK_digit_or_dot {s : Str} (h : decOK s = true) :
    ∀ c ∈ s, c.isDigit = true ∨ c = '.' := by
  intro c hc
  unfold decOK at h
  simp only [Bool.and_eq_true, List.all_eq_true] at h
  have := h.1.1.2 c hc
  rcases Bool.or_eq_true .. |>.mp this with h1 | h1
  · exact Or.inl h1
  · exact Or.inr (by simpa using h1)

theorem decOK_ne_empty {s : Str} (h : decOK s = true) : s.isEmpty = false := by
  unfold decOK at h
  simp only [Bool.and_eq_true, Bool.not_eq_eq_eq_not, Bool.not_true] at h
  exact h.1.1.1

theorem not_mem_of_digit_dot {s : Str}
    (h : ∀ c ∈ s, c.isDigit = true ∨ c = '.')
    {u : Char} (hu1 : u.isDigit = false) (hu2 : u ≠ '.') : u ∉ s := by
  intro hm
  rcases h u hm with hd | hd
  · rw [hu1] at hd; exact Bool.noConfusion hd
  · exact hu2 hd

theorem filter_statsKeep_eq {s : Str}
    (h : ∀ c ∈ s, c.isDigit = true ∨ c = '.')
    {u : Char} (hu : statsKeepChar u = true) :
    (s ++ [u]).filter statsKeepChar = s ++ [u] := by
  rw [List.filter_eq_self]
  intro a ha
  rcases List.mem_append.1 ha with ha | ha
  · rcases h a ha with hd | hd
    · simp [statsKeepChar, hd]
    · subst hd; decide
  · simp only [List.mem_singleton] at ha
    subst ha
    exact hu

theorem filter_erase_unit {s : Str}
    (h : ∀ c ∈ s, c.isDigit = true ∨ c = '.')
    {u : Char} (hu1 : u.isDigit = false) (hu2 : u ≠ '.') :
    (s ++ [u]).filter (fun c => decide (c ≠ u)) = s := by
  rw [List.filter_append]
  have h1 : s.filter (fun c => decide (c ≠ u)) = s := by
    rw [List.filter_eq_self]
    intro a ha
    have hne : a ≠ u := by
      intro e
      subst e
      exact (not_mem_of_digit_dot h hu1 hu2) ha
    simpa using hne
  have h2 : ([u]).filter (fun c => decide (c ≠ u)) = [] := by simp
  rw [h1, h2, List.append_nil]

theorem ratTrunc_natCast_div (n d : ℕ) :
    ratTrunc ((n : ℚ) / (d : ℚ)) = ((n / d : ℕ) : ℤ) := by
  have hq : (0 : ℚ) ≤ (n : ℚ) / (d : ℚ) := by positivity
  rw [ratTrunc, if_pos hq]
  exact_mod_cast Rat.floor_natCast_div_natCast n d

/-! ### Claims -/

/-- C4 (counterexample): the claim also asserts that records whose publish
date is unresolved are kept; the filter drops them.  A record with
`created = 0` (no resolvable date) is not kept by the filter for a window
that would admit any 1970–2024 date. -/
theorem window_filter_unresolved_dropped_cex :
    validOf ⟨⟨1970, 1, 1⟩, ⟨2024, 12, 31⟩⟩
      [⟨7, 5, 2, [], 0, none⟩] = [] := by decide

/-- C4 (amended): for records with a resolvable publish date
(`created > 0`) the filter keeps the record iff
`start_date ≤ published_at ≤ end_date`, inclusive at both boundaries;
records with an unresolved publish date (`created ≤ 0`) are dropped, not
kept. -/
theorem window_filter_inclusive_boundaries :
    (∀ (w : Window) (v : Video), 0 < v.created →
      (inWindowKeep w v = true ↔
        (dateLeB w.startDate (dateOfTs v.created) = true ∧
         dateLeB (dateOfTs v.created) w.endDate = true))) ∧
    (∀ (w : Window) (v : Video), v.created ≤ 0 → validOf w [v] = []) := by
  constructor
  · intro w v hv
    simp [inWindowKeep, hv]
  · intro w v hv
    have hn : ¬ (0 < v.created) := by omega
    simp [validOf, inWindowKeep, hn]

/-- Witness for C4: both boundary dates of a concrete window are kept
(inclusive), and a concrete unresolved record is dropped. -/
theorem window_filter_inclusive_boundaries_w :
    inWindowKeep ⟨⟨2024, 1, 1⟩, ⟨2024, 1, 31⟩⟩
      ⟨1, 0, 0, [], tsOfDate ⟨2024, 1, 1⟩, none⟩ = true ∧
    inWindowKeep ⟨⟨2024, 1, 1⟩, ⟨2024, 1, 31⟩⟩
      ⟨2, 0, 0, [], tsOfDate ⟨2024, 1, 31⟩, none⟩ = true ∧
    validOf ⟨⟨2024, 1, 1⟩, ⟨2024, 1, 31⟩⟩ [⟨3, 0, 0, [], 0, none⟩] = [] :=
  ⟨(window_filter_inclusive_boundaries.1 _ _ (by decide)).mpr (by decide),
   (window_filter_inclusive_boundaries.1 _ _ (by decide)).mpr (by decide),
   window_filter_inclusive_boundaries.2 _ _ (by decide)⟩

/-- A nonempty page on which every record is older than the window start
is a too-old page. -/
theorem tooOld_of_all_old {w : Window} {vs : List Video}
    (hvs : vs ≠ []) (hold : ∀ v ∈ vs, v.created < windowStartTs w) :
    checkVideosTooOld w vs = true := by
  have hne : vs.isEmpty = false := by
    cases vs with
    | nil => exact absurd rfl hvs
    | cons a l => rfl
  unfold checkVideosTooOld
  rw [hne]
  simp only [Bool.false_eq_true, if_false]
  have hf : vs.filter (fun v => decide (v.created ≥ windowStartTs w)) = [] := by
    rw [List.filter_eq_nil_iff]
    intro v hv
    have := hold v hv
    simp only [decide_eq_true_eq]
    omega
  rw [hf]
  simp

/-- C6: on a page all of whose parsed records are chronologically older
than the window's `start_date`, the pagination loop stops at once: the
state (in particular the accumulated list) is returned unchanged, and the
only page fetched from this point on is the current one — no further page
is fetched in the session. -/
theorem too_old_page_stops (world : Nat → PageOutcome) (w : Window)
    (maxPages fuel : Nat) (s : LoopState) (vs : List Video) (hn : Bool)
    (tp : Nat) (hfuel : 0 < fuel) (hpage : s.page ≤ maxPages)
    (hw : world s.page = .content vs hn tp) (hvs : vs ≠ [])
    (hold : ∀ v ∈ vs, v.created < windowStartTs w) :
    runLoop world w maxPages fuel s = (s, [s.page]) := by
  obtain ⟨f, rfl⟩ : ∃ f, fuel = f + 1 := ⟨fuel - 1, by omega⟩
  have hne : vs.isEmpty = false := by
    cases vs with
    | nil => exact absurd rfl hvs
    | cons a l => rfl
  have hnotgt : ¬ (s.page > maxPages) := by omega
  simp only [runLoop, hw, if_neg hnotgt, hne, tooOld_of_all_old hvs hold,
    Bool.false_eq_true, if_false, if_true]

/-- Witness for C6: a concrete world whose page 1 carries one record from
2023, queried with a window starting 2024-01-01; the loop stops at page 1
with nothing accumulated. -/
theorem too_old_page_stops_w :
    runLoop
      (fun _ => .content [⟨9, 1, 1, [], tsOfDate ⟨2023, 6, 1⟩, none⟩] true 1)
      ⟨⟨2024, 1, 1⟩, ⟨2024, 1, 31⟩⟩ 15 16 ⟨1, 0, 0, []⟩ =
      (⟨1, 0, 0, []⟩, [1]) :=
  too_old_page_stops _ _ _ _ _ _ _ _ (by omega) (by decide) rfl
    (by decide) (by decide)

/-- If no page of the world contributes in-window records, the page loop
never extends the accumulator. -/
theorem runLoop_acc_nil (world : Nat → PageOutcome) (w : Window)
    (maxPages : Nat)
    (H : ∀ p vs hn tp, world p = .content vs hn tp → validOf w vs = []) :
    ∀ (fuel : Nat) (s : LoopState),
      ((runLoop world w maxPages fuel s).1).acc = s.acc := by
  intro fuel
  induction fuel with
  | zero => intro s; rfl
  | succ f ih =>
    intro s
    simp only [runLoop]
    by_cases hpg : s.page > maxPages
    · simp [hpg]
    · simp only [if_neg hpg]
      cases hw : world s.page with
      | navFail => rfl
      | fetchErr =>
        by_cases hcf : s.consecFail + 1 ≥ maxConsecFailures
        · simp [hcf]
        · simp only [if_neg hcf]
          exact ih _
      | content vs hn tp =>
        have hval : validOf w vs = [] := H _ _ _ _ hw
        by_cases hemp : vs.isEmpty = true
        · simp [hemp]
        · simp only [hemp, Bool.false_eq_true, if_false]
          by_cases htoo : checkVideosTooOld w vs = true
          · simp [htoo]
          · simp only [htoo, Bool.false_eq_true, if_false]
            rw [hval]
            simp only [List.append_nil, List.length_nil, eq_self_iff_true,
              true_and, if_true]
            split
            · rfl
            · split
              · rfl
              · split
                · rfl
                · exact ih _

/-- A world with no in-window records makes any single session attempt
raise (empty accumulation). -/
theorem fetchSession_error_of_no_valid (world : Nat → PageOutcome)
    (w : Window) (extended : Bool)
    (H : ∀ p vs hn tp, world p = .content vs hn tp → validOf w vs = []) :
    fetchSession world w extended = .error .noneInWindow := by
  unfold fetchSession
  rw [runLoop_acc_nil world w _ H]
  rfl

/-- When every attempt's session raises, the supervisor raises the fixed
`noData` error. -/
theorem supervisor_error_of_all_fail (worlds : Nat → Nat → PageOutcome)
    (w : Window) (extended : Bool) (baseDelay : ℚ)
    (H : ∀ i, ∃ e, fetchSession (worlds i) w extended = .error e) :
    ∀ rem i, (supervisorGo worlds w extended baseDelay rem i).1 =
      .error .noData := by
  intro rem
  induction rem with
  | zero => intro i; rfl
  | succ r ih =>
    intro i
    obtain ⟨e, he⟩ := H i
    simp only [supervisorGo, he]
    by_cases hr : r = 0
    · simp [hr]
    · simp only [if_neg hr]
      exact ih (i + 1)

/-- C1 (counterexample): an account with zero videos (every page parses
empty) makes the top-level fetch raise the final error after its retries —
it does not return the empty list, nor any result value at all. -/
theorem acquire_empty_window_cex :
    (fetchVideosPlaywright 3 (fun _ _ => .content [] false 1)
      ⟨⟨2024, 1, 1⟩, ⟨2024, 1, 31⟩⟩ false 2).1 = .error .noData ∧
    ∀ vs : List Video,
      (fetchVideosPlaywright 3 (fun _ _ => .content [] false 1)
        ⟨⟨2024, 1, 1⟩, ⟨2024, 1, 31⟩⟩ false 2).1 ≠ .ok vs := by
  refine ⟨rfl, fun vs h => ?_⟩
  rw [show (fetchVideosPlaywright 3 (fun _ _ => .content [] false 1)
      ⟨⟨2024, 1, 1⟩, ⟨2024, 1, 31⟩⟩ false 2).1 = .error .noData
    from rfl] at h
  exact Except.noConfusion h

/-- C1 (amended): for every acquisition whose account has zero videos in
the window (no page ever contributes an in-window record), the top-level
fetch does **not** return `[]`: the loop's empty accumulation makes each
attempt raise, and after the retries the call raises the final error. -/
theorem acquire_empty_window_raises (attempts : Nat)
    (worlds : Nat → Nat → PageOutcome) (w : Window) (extended : Bool)
    (baseDelay : ℚ)
    (H : ∀ i p vs hn tp, worlds i p = .content vs hn tp →
      validOf w vs = []) :
    (fetchVideosPlaywright attempts worlds w extended baseDelay).1 =
      .error .noData :=
  supervisor_error_of_all_fail worlds w extended baseDelay
    (fun i => ⟨_, fetchSession_error_of_no_valid (worlds i) w extended
      (H i)⟩) attempts 0

/-- Witness for C1: a world whose single page holds one record published
2025-06-01, fetched with window January 2024 (zero in-window videos). -/
theorem acquire_empty_window_raises_w :
    (fetchVideosPlaywright 3
      (fun _ _ => .content [⟨4, 2, 1, [], tsOfDate ⟨2025, 6, 1⟩, none⟩]
        true 0)
      ⟨⟨2024, 1, 1⟩, ⟨2024, 1, 31⟩⟩ false 2).1 = .error .noData :=
  acquire_empty_window_raises 3 _ _ false 2
    (by intro i p vs hn tp h; cases h; decide)

/-- One successful-page step of the loop: nonempty parse, not too old, at
least one in-window record, a next page, and no total-page stop — the loop
appends the page's in-window records, resets the failure counter and moves
to the next page. -/
theorem runLoop_step_content (world : Nat → PageOutcome) (w : Window)
    (maxPages fuel : Nat) (s : LoopState) (vs : List Video) (tp : Nat)
    (hfuel : 0 < fuel) (hpage : ¬ (s.page > maxPages))
    (hw : world s.page = .content vs true tp)
    (hvs : vs.isEmpty = false) (htoo : checkVideosTooOld w vs = false)
    (hvalid : ¬ ((validOf w vs).length = 0))
    (htp : ¬ (1 < tp ∧ tp ≤ s.page)) :
    runLoop world w maxPages fuel s =
      ((runLoop world w maxPages (fuel - 1)
          ⟨s.page + 1, 0, 0, s.acc ++ validOf w vs⟩).1,
        s.page :: (runLoop world w maxPages (fuel - 1)
          ⟨s.page + 1, 0, 0, s.acc ++ validOf w vs⟩).2) := by
  obtain ⟨f, rfl⟩ : ∃ f, fuel = f + 1 := ⟨fuel - 1, by omega⟩
  simp only [runLoop, if_neg hpage, hw, hvs, Bool.false_eq_true, if_false,
    htoo, if_neg hvalid, Nat.add_sub_cancel]
  rw [if_neg (fun hc => hvalid hc.1)]
  simp only [if_neg htp]
  rw [if_neg (show ¬ ((true : Bool) = false) by simp)]

/-- One failed-page step below the failure bound: the loop increments the
consecutive-failure counter and moves on to the next page. -/
theorem runLoop_step_fetchErr_cont (world : Nat → PageOutcome) (w : Window)
    (maxPages fuel : Nat) (s : LoopState)
    (hfuel : 0 < fuel) (hpage : ¬ (s.page > maxPages))
    (hw : world s.page = .fetchErr)
    (hcf : ¬ (s.consecFail + 1 ≥ maxConsecFailures)) :
    runLoop world w maxPages fuel s =
      ((runLoop world w maxPages (fuel - 1)
          ⟨s.page + 1, s.consecFail + 1, s.consecEmpty, s.acc⟩).1,
        s.page :: (runLoop world w maxPages (fuel - 1)
          ⟨s.page + 1, s.consecFail + 1, s.consecEmpty, s.acc⟩).2) := by
  obtain ⟨f, rfl⟩ : ∃ f, fuel = f + 1 := ⟨fuel - 1, by omega⟩
  simp only [runLoop, if_neg hpage, hw, if_neg hcf, Nat.add_sub_cancel]

/-- One failed-page step that reaches the failure bound: the loop stops,
returning the accumulated records unchanged. -/
theorem runLoop_step_fetchErr_stop (world : Nat → PageOutcome) (w : Window)
    (maxPages fuel : Nat) (s : LoopState)
    (hfuel : 0 < fuel) (hpage : ¬ (s.page > maxPages))
    (hw : world s.page = .fetchErr)
    (hcf : s.consecFail + 1 ≥ maxConsecFailures) :
    runLoop world w maxPages fuel s =
      (⟨s.page, s.consecFail + 1, s.consecEmpty, s.acc⟩, [s.page]) := by
  obtain ⟨f, rfl⟩ : ∃ f, fuel = f + 1 := ⟨fuel - 1, by omega⟩
  simp only [runLoop, if_neg hpage, hw, if_pos hcf]

/-- A list with a nonempty list appended on the left is nonempty. -/
theorem isEmpty_false_of_left_ne {α : Type} {l1 l2 : List α} (h : l1 ≠ []) :
    (l1 ++ l2).isEmpty = false := by
  cases l1 with
  | nil => exact absurd rfl h
  | cons a t => rfl

/-- `validOf` nonempty forces a nonempty page. -/
theorem page_ne_nil_of_valid {w : Window} {vs : List Video}
    (h : validOf w vs ≠ []) : vs.isEmpty = false := by
  cases vs with
  | nil => exact absurd rfl h
  | cons a t => rfl

/-- C7 (amended): when the consecutive-failure counter reaches the bound,
the controller stops paging and the call returns exactly the in-window
records accumulated from the pages that succeeded before the failures —
*provided at least one record was accumulated* (an empty accumulation
instead makes the attempt raise, cf. the empty-window claim).  Concretely:
successes on pages 1–3 with in-window records, failures from page 4 on —
the consecutive-failure bound (2 in the source) is reached on page 5, page
6 is never fetched, and the call returns the in-window records of pages
1–3. -/
theorem consec_failures_return_accumulated
    (attempts : Nat) (worlds : Nat → Nat → PageOutcome) (w : Window)
    (extended : Bool) (baseDelay : ℚ) (vs1 vs2 vs3 : List Video)
    (hatt : 1 ≤ attempts)
    (h1 : worlds 0 1 = .content vs1 true 1)
    (h2 : worlds 0 2 = .content vs2 true 1)
    (h3 : worlds 0 3 = .content vs3 true 1)
    (h4 : worlds 0 4 = .fetchErr) (h5 : worlds 0 5 = .fetchErr)
    (hv1 : validOf w vs1 ≠ []) (hv2 : validOf w vs2 ≠ [])
    (hv3 : validOf w vs3 ≠ [])
    (ht1 : checkVideosTooOld w vs1 = false)
    (ht2 : checkVideosTooOld w vs2 = false)
    (ht3 : checkVideosTooOld w vs3 = false) :
    (fetchVideosPlaywright attempts worlds w extended baseDelay).1 =
      .ok (validOf w vs1 ++ (validOf w vs2 ++ validOf w vs3)) := by
  have hM : 15 ≤ maxPagesFor extended := by
    unfold maxPagesFor; split <;> omega
  set W := worlds 0 with hW
  set M := maxPagesFor extended with hMdef
  have hs : fetchSession (worlds 0) w extended =
      .ok (validOf w vs1 ++ (validOf w vs2 ++ validOf w vs3)) := by
    have e1 : runLoop W w M (M + 1) ⟨1, 0, 0, []⟩ =
        ((runLoop W w M M ⟨2, 0, 0, validOf w vs1⟩).1,
          1 :: (runLoop W w M M ⟨2, 0, 0, validOf w vs1⟩).2) := by
      have h := runLoop_step_content W w M (M + 1) ⟨1, 0, 0, []⟩ vs1 1
        (by omega) (by show ¬ (1 > M); omega) h1
        (page_ne_nil_of_valid hv1) ht1
        (fun hc => hv1 (List.length_eq_zero.mp hc)) (by omega)
      simpa using h
    have e2 : runLoop W w M M ⟨2, 0, 0, validOf w vs1⟩ =
        ((runLoop W w M (M - 1)
            ⟨3, 0, 0, validOf w vs1 ++ validOf w vs2⟩).1,
          2 :: (runLoop W w M (M - 1)
            ⟨3, 0, 0, validOf w vs1 ++ validOf w vs2⟩).2) := by
      have h := runLoop_step_content W w M M ⟨2, 0, 0, validOf w vs1⟩ vs2 1
        (by omega) (by show ¬ (2 > M); omega) h2
        (page_ne_nil_of_valid hv2) ht2
        (fun hc => hv2 (List.length_eq_zero.mp hc)) (by omega)
      simpa using h
    have e3 : runLoop W w M (M - 1)
          ⟨3, 0, 0, validOf w vs1 ++ validOf w vs2⟩ =
        ((runLoop W w M (M - 2)
            ⟨4, 0, 0, validOf w vs1 ++ (validOf w vs2 ++ validOf w vs3)⟩).1,
          3 :: (runLoop W w M (M - 2)
            ⟨4, 0, 0,
              validOf w vs1 ++ (validOf w vs2 ++ validOf w vs3)⟩).2) := by
      have h := runLoop_step_content W w M (M - 1)
        ⟨3, 0, 0, validOf w vs1 ++ validOf w vs2⟩ vs3 1
        (by omega) (by show ¬ (3 > M); omega) h3
        (page_ne_nil_of_valid hv3) ht3
        (fun hc => hv3 (List.length_eq_zero.mp hc)) (by omega)
      rw [show M - 1 - 1 = M - 2 from by omega] at h
      simpa using h
    have e4 : runLoop W w M (M - 2)
          ⟨4, 0, 0, validOf w vs1 ++ (validOf w vs2 ++ validOf w vs3)⟩ =
        ((runLoop W w M (M - 3)
            ⟨5, 1, 0, validOf w vs1 ++ (validOf w vs2 ++ validOf w vs3)⟩).1,
          4 :: (runLoop W w M (M - 3)
            ⟨5, 1, 0,
              validOf w vs1 ++ (validOf w vs2 ++ validOf w vs3)⟩).2) := by
      have h := runLoop_step_fetchErr_cont W w M (M - 2)
        ⟨4, 0, 0, validOf w vs1 ++ (validOf w vs2 ++ validOf w vs3)⟩
        (by omega) (by show ¬ (4 > M); omega) h4
        (by show ¬ (0 + 1 ≥ maxConsecFailures); decide)
      rw [show M - 2 - 1 = M - 3 from by omega] at h
      simpa using h
    have e5 : runLoop W w M (M - 3)
          ⟨5, 1, 0, validOf w vs1 ++ (validOf w vs2 ++ validOf w vs3)⟩ =
        (⟨5, 2, 0, validOf w vs1 ++ (validOf w vs2 ++ validOf w vs3)⟩,
          [5]) := by
      have h := runLoop_step_fetchErr_stop W w M (M - 3)
        ⟨5, 1, 0, validOf w vs1 ++ (validOf w vs2 ++ validOf w vs3)⟩
        (by omega) (by show ¬ (5 > M); omega) h5
        (by show 1 + 1 ≥ maxConsecFailures; decide)
      simpa using h
    unfold fetchSession
    rw [← hW, ← hMdef, e1, e2, e3, e4, e5]
    simp [isEmpty_false_of_left_ne hv1]
  obtain ⟨a, rfl⟩ : ∃ a, attempts = a + 1 := ⟨attempts - 1, by omega⟩
  simp only [fetchVideosPlaywright, supervisorGo, hs]

/-- Witness for C7: concrete pages with one in-window record each on pages
1–3 and failures from page 4 on; the call returns the three records. -/
theorem consec_failures_return_accumulated_w :
    (fetchVideosPlaywright 3
      (fun _ p =>
        if p = 1 then
          .content [⟨1, 9, 9, [], tsOfDate ⟨2024, 1, 10⟩, none⟩] true 1
        else if p = 2 then
          .content [⟨2, 9, 9, [], tsOfDate ⟨2024, 1, 11⟩, none⟩] true 1
        else if p = 3 then
          .content [⟨3, 9, 9, [], tsOfDate ⟨2024, 1, 12⟩, none⟩] true 1
        else .fetchErr)
      ⟨⟨2024, 1, 1⟩, ⟨2024, 1, 31⟩⟩ false 2).1 =
      .ok (validOf ⟨⟨2024, 1, 1⟩, ⟨2024, 1, 31⟩⟩
            [⟨1, 9, 9, [], tsOfDate ⟨2024, 1, 10⟩, none⟩] ++
          (validOf ⟨⟨2024, 1, 1⟩, ⟨2024, 1, 31⟩⟩
            [⟨2, 9, 9, [], tsOfDate ⟨2024, 1, 11⟩, none⟩] ++
           validOf ⟨⟨2024, 1, 1⟩, ⟨2024, 1, 31⟩⟩
            [⟨3, 9, 9, [], tsOfDate ⟨2024, 1, 12⟩, none⟩])) :=
  consec_failures_return_accumulated 3 _ _ false 2 _ _ _ (by omega)
    rfl rfl rfl rfl rfl (by decide) (by decide) (by decide)
    (by decide) (by decide) (by decide)

/-- C7 (counterexample): with failures from page 1 on, the bound is
reached with an empty accumulation, and the call raises instead of
returning the accumulated (empty) list — the claim's "returns ..., not an
error" does not hold unconditionally. -/
theorem consec_failures_empty_acc_cex :
    (fetchVideosPlaywright 3 (fun _ _ => .fetchErr)
      ⟨⟨2024, 1, 1⟩, ⟨2024, 1, 31⟩⟩ false 2).1 = .error .noData ∧
    ∀ vs : List Video,
      (fetchVideosPlaywright 3 (fun _ _ => .fetchErr)
        ⟨⟨2024, 1, 1⟩, ⟨2024, 1, 31⟩⟩ false 2).1 ≠ .ok vs := by
  refine ⟨rfl, fun vs h => ?_⟩
  rw [show (fetchVideosPlaywright 3 (fun _ _ => .fetchErr)
      ⟨⟨2024, 1, 1⟩, ⟨2024, 1, 31⟩⟩ false 2).1 = .error .noData
    from rfl] at h
  exact Except.noConfusion h

/-- When every attempt fails, the supervisor raises the fixed `noData`
error and sleeps `baseDelay * 1.5 ^ attempt` between consecutive attempts
(no delay after the last). -/
theorem supervisor_backoff_of_all_fail (worlds : Nat → Nat → PageOutcome)
    (w : Window) (extended : Bool) (baseDelay : ℚ)
    (H : ∀ i, ∃ e, fetchSession (worlds i) w extended = .error e) :
    ∀ rem i, supervisorGo worlds w extended baseDelay rem i =
      (.error .noData,
        (List.range (rem - 1)).map
          (fun k => baseDelay * (3 / 2 : ℚ) ^ (i + k))) := by
  intro rem
  induction rem with
  | zero => intro i; rfl
  | succ r ih =>
    intro i
    obtain ⟨e, he⟩ := H i
    simp only [supervisorGo, he]
    by_cases hr : r = 0
    · subst hr; simp
    · simp only [if_neg hr]
      rw [ih (i + 1)]
      obtain ⟨rr, rfl⟩ : ∃ rr, r = rr + 1 := ⟨r - 1, by omega⟩
      simp only [Nat.add_sub_cancel, List.range_succ_eq_map, List.map_cons,
        List.map_map, Nat.add_zero]
      refine congrArg _ (congrArg _ ?_)
      refine List.map_congr_left (fun k _ => ?_)
      have hik : i + 1 + k = i + (k + 1) := by omega
      simp [Function.comp, hik]

/-- C8 (amended): the supervisor performs the configured number of
whole-session attempts with delay `base_delay * 1.5 ^ attempt` between
consecutive attempts, and after the last attempt fails it raises a fixed
terminal error that does **not** carry the last underlying error; no
synthetic records are substituted (the result is an error, never a
fabricated `ok`). -/
theorem retry_backoff_and_final_error (attempts : Nat)
    (worlds : Nat → Nat → PageOutcome) (w : Window) (extended : Bool)
    (baseDelay : ℚ)
    (H : ∀ i, ∃ e, fetchSession (worlds i) w extended = .error e) :
    fetchVideosPlaywright attempts worlds w extended baseDelay =
      (.error .noData,
        (List.range (attempts - 1)).map
          (fun k => baseDelay * (3 / 2 : ℚ) ^ k)) := by
  have h := supervisor_backoff_of_all_fail worlds w extended baseDelay H
    attempts 0
  simpa [fetchVideosPlaywright] using h

/-- Witness for C8: three attempts over a world whose pagination always
fails to navigate; two backoff delays `2 * 1.5 ^ 0` and `2 * 1.5 ^ 1` are
slept and the fixed final error is raised. -/
theorem retry_backoff_and_final_error_w :
    fetchVideosPlaywright 3 (fun _ _ => .navFail)
      ⟨⟨2024, 1, 1⟩, ⟨2024, 1, 31⟩⟩ false 2 =
      (.error .noData,
        (List.range 2).map (fun k => 2 * (3 / 2 : ℚ) ^ k)) :=
  retry_backoff_and_final_error 3 _ _ false 2 (fun _ => ⟨_, rfl⟩)

/-- C8 (counterexample): the final exception does not carry the last
underlying error.  Every attempt here ends in the in-loop empty-data error
(`noneInWindow`), yet the exhausted supervisor raises the distinct fixed
error (`noData`). -/
theorem retry_final_error_not_last_cex :
    fetchSession (fun _ => .navFail) ⟨⟨2024, 1, 1⟩, ⟨2024, 1, 31⟩⟩ false =
      .error .noneInWindow ∧
    (fetchVideosPlaywright 2 (fun _ _ => .navFail)
      ⟨⟨2024, 1, 1⟩, ⟨2024, 1, 31⟩⟩ false 2).1 = .error .noData ∧
    CrawlError.noData ≠ CrawlError.noneInWindow :=
  ⟨rfl, rfl, by decide⟩

/-- The final span sweep finds nothing when no span text carries a
relative marker. -/
theorem fastStepSpanTexts_none (now : DateTimeT) :
    ∀ l : List Str, (∀ t ∈ l, spanTextGate t = false) →
      fastStepSpanTexts now l = none := by
  intro l
  induction l with
  | nil => intro _; rfl
  | cons t rest ih =>
    intro h
    have hg := h t (List.mem_cons_self t rest)
    simp only [fastStepSpanTexts, hg, Bool.false_eq_true, if_false]
    exact ih (fun x hx => h x (List.mem_cons_of_mem _ hx))

/-- A card with no publish-date information at all: an av link, a title,
stats, but no title-attributed spans, no time-selector hits, no relative
expressions anywhere. -/
def noDateCard : Card :=
  ⟨some ( "/video/av99".data ), none, ( "t".data ), none, none,
    [], [], [], [], [], ( "t".data )⟩

/-- C2 (counterexample): on a card whose publish date no strategy can
extract, the parser does **not** leave the date unset — it substitutes the
current time: the extractor returns `now` itself, and the emitted record's
`created` field is the current timestamp (nonzero). -/
theorem unresolved_date_fabricates_now_cex :
    extractPublishTimestampFast sampleNow noDateCard = tsOfDT sampleNow ∧
    (parseCard (fun _ => 0) sampleNow noDateCard).map Video.created =
      some (tsOfDT sampleNow) ∧
    tsOfDT sampleNow ≠ 0 := by decide

/-- C2 (amended): for every card whose publish date no strategy can
extract (no title-attributed span, no time-selector hit, and no span text
carrying a relative-time marker), the parser sets the record's timestamp
to the current time (`int(time.time())`) — the date is fabricated as
"now", not left unset. -/
theorem unresolved_date_fabricated_as_now (now : DateTimeT) (card : Card)
    (h1 : card.titleSpans = []) (h2 : card.timeElems = [])
    (h3 : ∀ t ∈ card.spanTexts, spanTextGate t = false) :
    extractPublishTimestampFast now card = tsOfDT now := by
  unfold extractPublishTimestampFast
  rw [h1, h2, fastStepSpanTexts_none now _ h3]
  rfl

/-- Witness for C2: a realistic dateless card whose spans carry only
view/comment counts. -/
def statsOnlyCard : Card :=
  ⟨some ( "/video/av12".data ), none, ( "标题".data ),
    some ( "3.2万".data ), some ( "12".data ),
    [], [], [], [], [ ( "3.2万".data ), ( "12".data ) ], ( "x".data )⟩

/-- Witness for C2 applied at `statsOnlyCard`. -/
theorem unresolved_date_fabricated_as_now_w :
    extractPublishTimestampFast sampleNow statsOnlyCard =
      tsOfDT sampleNow :=
  unresolved_date_fabricated_as_now sampleNow statsOnlyCard rfl rfl
    (by decide)

/-- `_parse_stats_number` never returns a negative count. -/
theorem parseStatsNumber_nonneg (t : Str) : 0 ≤ parseStatsNumber t := by
  simp only [parseStatsNumber, decTimes]
  repeat' split
  all_goals exact Int.natCast_nonneg _

/-- `_extract_view_count_from_title` never returns a negative count. -/
theorem extractViewCountFromTitle_nonneg (t : Str) :
    0 ≤ extractViewCountFromTitle t := by
  simp only [extractViewCountFromTitle, decTimes]
  repeat' split
  all_goals exact Int.natCast_nonneg _

/-- The `play_selectors` sweep never returns a negative count. -/
theorem firstPositiveStats_nonneg (l : List Str) :
    0 ≤ firstPositiveStats l := by
  induction l with
  | nil => exact le_rfl
  | cons t rest ih =>
    simp only [firstPositiveStats]
    split
    · rename_i h
      omega
    · exact ih

/-- The whole view/comment extraction chain is nonnegative. -/
theorem cardStats_nonneg (card : Card) :
    0 ≤ (cardStats card).1 ∧ 0 ≤ (cardStats card).2 := by
  constructor <;>
  · simp only [cardStats]
    repeat' split
    all_goals first
      | exact parseStatsNumber_nonneg _
      | exact extractViewCountFromTitle_nonneg _
      | exact firstPositiveStats_nonneg _
      | exact le_rfl

/-- Inversion of a successful card parse: the emitted record has a
positive aid and nonnegative counts. -/
theorem parseCard_fields {hash : Str → Int} {now : DateTimeT} {card : Card}
    {v : Video} (h : parseCard hash now card = some v) :
    0 < v.aid ∧ 0 ≤ v.view ∧ 0 ≤ v.comment := by
  unfold parseCard at h
  split at h
  · exact Option.noConfusion h
  · split at h
    · rename_i haid
      rw [Option.some_inj] at h
      subst h
      exact ⟨haid, (cardStats_nonneg card).1, (cardStats_nonneg card).2⟩
    · exact Option.noConfusion h

/-- C5 (amended): every record emitted by the listing parser for one page
satisfies `view_count ≥ 0`, `comment_count ≥ 0` and `id > 0` (cards from
which no positive id can be extracted are skipped, never emitted) — but
the id is **not** guaranteed unique within one page's output, see the
counterexample. -/
theorem parsed_records_invariants (hash : Str → Int) (now : DateTimeT)
    (p : PageHtml) (v : Video)
    (hv : v ∈ parseVideosFromHtml hash now p) :
    0 < v.aid ∧ 0 ≤ v.view ∧ 0 ≤ v.comment := by
  obtain ⟨card, _, hcard⟩ := List.mem_filterMap.mp hv
  exact parseCard_fields hcard

/-- A concrete full card: av link, image title, cover stats, a
machine-readable `data-time`. -/
def avCard : Card :=
  ⟨some ( "/video/av321".data ), some ( "标题A".data ), ( "标题A".data ),
    some ( "3.5万".data ), some ( "120".data ),
    [], [], [], [⟨( "1702000000".data ), [], []⟩], [], ( "k".data )⟩

/-- The page holding `avCard` once. -/
def avPage : PageHtml := ⟨[[avCard]], []⟩

/-- Witness for C5: the record parsed from `avCard`. -/
theorem parsed_records_invariants_w :
    0 < (⟨321, 35000, 120, ( "标题A".data ), 1702000000, none⟩ :
      Video).aid ∧
    0 ≤ (⟨321, 35000, 120, ( "标题A".data ), 1702000000, none⟩ :
      Video).view ∧
    0 ≤ (⟨321, 35000, 120, ( "标题A".data ), 1702000000, none⟩ :
      Video).comment :=
  parsed_records_invariants (fun _ => 0) sampleNow avPage _ (by decide)

/-- A minimal av card for the duplication counterexample. -/
def dupCard : Card :=
  ⟨some ( "/video/av77".data ), none, ( "t".data ), none, none,
    [], [], [], [], [], ( "t".data )⟩

/-- A page on which two of the overlapping container selectors both match
the container of `dupCard` — the card collector extends the card list once
per selector, without dedup. -/
def dupPage : PageHtml := ⟨[[dupCard], [dupCard]], []⟩

/-- C5 (counterexample): the id does not uniquely identify a video within
one listing snapshot — overlapping container selectors make the parser
emit the same card twice, so one page's output holds two records with the
same id. -/
theorem duplicate_ids_in_page_cex :
    (parseVideosFromHtml (fun _ => 0) sampleNow dupPage).map Video.aid =
      [77, 77] ∧
    ¬ ((parseVideosFromHtml (fun _ => 0) sampleNow dupPage).map
        Video.aid).Nodup := by decide

/-- `hasSub` decides substring occurrence. -/
theorem hasSub_iff_substr (pat : Str) :
    ∀ s : Str, hasSub pat s = true ↔ pat <:+: s := by
  intro s
  induction s with
  | nil =>
    simp [hasSub, List.isEmpty_iff, List.infix_nil]
  | cons c rest ih =>
    simp [hasSub, List.infix_cons_iff, ih]

/-- Stripping yields a substring. -/
theorem trim_substr (s : Str) : trim s <:+: s := by
  have h1 : trim s <+: s.dropWhile isSpaceChar := by
    rw [show trim s = List.rdropWhile isSpaceChar (s.dropWhile isSpaceChar)
      from rfl]
    exact List.rdropWhile_prefix _ _
  have h2 : s.dropWhile isSpaceChar <:+ s := List.dropWhile_suffix _
  exact h1.isInfix.trans h2.isInfix

/-- A pattern absent from a string is absent from its stripped form. -/
theorem hasSub_trim_mono {pat s : Str} (h : hasSub pat s = false) :
    hasSub pat (trim s) = false := by
  by_contra hc
  have h1 : hasSub pat (trim s) = true := by
    revert hc
    cases hasSub pat (trim s) <;> simp
  have h3 : pat <:+: s :=
    ((hasSub_iff_substr pat _).mp h1).trans (trim_substr s)
  rw [(hasSub_iff_substr pat s).mpr h3] at h
  exact Bool.noConfusion h

/-- No relative-time marker relevant to the ultra-fast parser occurs in
the string. -/
def noRelStr (t : Str) : Bool :=
  !(hasSub hoursAgoM t) && !(hasSub minutesAgoM t) && !(hasSub daysAgoM t)

theorem noRelStr_split {t : Str} (h : noRelStr t = true) :
    hasSub hoursAgoM t = false ∧ hasSub minutesAgoM t = false ∧
      hasSub daysAgoM t = false := by
  have h2 : (hasSub hoursAgoM t = false ∧ hasSub minutesAgoM t = false) ∧
      hasSub daysAgoM t = false := by simpa [noRelStr] using h
  exact ⟨h2.1.1, h2.1.2, h2.2⟩

/-- On a string with no relative marker, the ultra-fast parser reads only
the absolute-date shape and is independent of the clock. -/
theorem parseUltra_now_indep {t : Str} (h : noRelStr t = true)
    (n1 n2 : DateTimeT) :
    parseTimeStringUltraFast n1 t = parseTimeStringUltraFast n2 t := by
  obtain ⟨h1, h2, h3⟩ := noRelStr_split h
  simp only [parseTimeStringUltraFast, hasSub_trim_mono h1,
    hasSub_trim_mono h2, hasSub_trim_mono h3, Bool.false_eq_true, if_false]

/-- No relative marker in either time-bearing attribute of an element. -/
def noRelElem (e : TimeElem) : Bool := noRelStr e.titleAttr && noRelStr e.text

/-- The element carries a machine-readable timestamp that `int()`
accepts. -/
def hasGoodDataTime (e : TimeElem) : Bool :=
  !e.dataTime.isEmpty && (parseIntPy e.dataTime).isSome

/-- The first extractor loop is clock-independent on marker-free spans. -/
theorem fastStepTitleSpans_indep (n1 n2 : DateTimeT) :
    ∀ l : List Str, (∀ t ∈ l, noRelStr t = true) →
      fastStepTitleSpans n1 l = fastStepTitleSpans n2 l := by
  intro l
  induction l with
  | nil => intro _; rfl
  | cons t rest ih =>
    intro h
    have ht := parseUltra_now_indep (h t (List.mem_cons_self t rest)) n1 n2
    have hrest := ih (fun x hx => h x (List.mem_cons_of_mem _ hx))
    simp only [fastStepTitleSpans, ht, hrest]

/-- The second extractor loop is clock-independent and guaranteed to
return, on marker-free elements one of which carries a parseable
`data-time`. -/
theorem fastStepTimeElems_indep (n1 n2 : DateTimeT) :
    ∀ l : List TimeElem, (∀ e ∈ l, noRelElem e = true) →
      (∃ e ∈ l, hasGoodDataTime e = true) →
      fastStepTimeElems n1 l = fastStepTimeElems n2 l ∧
        (fastStepTimeElems n1 l).isSome = true := by
  intro l
  induction l with
  | nil =>
    intro _ hex
    exact absurd hex (by simp)
  | cons e rest ih =>
    intro hall hex
    have hnr : noRelStr e.titleAttr = true ∧ noRelStr e.text = true := by
      simpa [noRelElem] using hall e (List.mem_cons_self e rest)
    have htitle := parseUltra_now_indep hnr.1 n1 n2
    have htext := parseUltra_now_indep hnr.2 n1 n2
    have hallr : ∀ x ∈ rest, noRelElem x = true :=
      fun x hx => hall x (List.mem_cons_of_mem _ hx)
    have hrest_of_bad : hasGoodDataTime e = false →
        ∃ x ∈ rest, hasGoodDataTime x = true := by
      intro hbad
      rcases hex with ⟨x, hx, hgx⟩
      rcases List.mem_cons.mp hx with rfl | hx2
      · rw [hbad] at hgx
        exact Bool.noConfusion hgx
      · exact ⟨x, hx2, hgx⟩
    simp only [fastStepTimeElems]
    by_cases hdt : (!e.dataTime.isEmpty) = true
    · simp only [hdt, if_true]
      cases hpi : parseIntPy e.dataTime with
      | some v => exact ⟨rfl, rfl⟩
      | none =>
        have hbad : hasGoodDataTime e = false := by
          simp [hasGoodDataTime, hpi]
        obtain ⟨heq, hsome⟩ := ih hallr (hrest_of_bad hbad)
        rw [htitle, htext, heq]
        refine ⟨rfl, ?_⟩
        rw [heq] at hsome
        by_cases hc1 : (!e.titleAttr.isEmpty) = true ∧
            parseTimeStringUltraFast n2 e.titleAttr > 0
        · rw [if_pos hc1]; rfl
        · rw [if_neg hc1]
          by_cases hc2 : (!e.text.isEmpty) = true ∧
              parseTimeStringUltraFast n2 e.text > 0
          · rw [if_pos hc2]; rfl
          · rw [if_neg hc2]; exact hsome
    · have hdt2 : (!e.dataTime.isEmpty) = false := by
        revert hdt
        cases (!e.dataTime.isEmpty) <;> simp
      have hbad : hasGoodDataTime e = false := by
        simp only [hasGoodDataTime, hdt2, Bool.false_and]
      obtain ⟨heq, hsome⟩ := ih hallr (hrest_of_bad hbad)
      simp only [hdt2, Bool.false_eq_true, if_false]
      rw [htitle, htext, heq]
      refine ⟨rfl, ?_⟩
      rw [heq] at hsome
      by_cases hc1 : (!e.titleAttr.isEmpty) = true ∧
          parseTimeStringUltraFast n2 e.titleAttr > 0
      · rw [if_pos hc1]; rfl
      · rw [if_neg hc1]
        by_cases hc2 : (!e.text.isEmpty) = true ∧
            parseTimeStringUltraFast n2 e.text > 0
        · rw [if_pos hc2]; rfl
        · rw [if_neg hc2]; exact hsome

/-- A card all of whose time-bearing strings are marker-free and that
carries a machine-readable `data-time`: its timestamp is resolved from an
absolute source. -/
def absCard (c : Card) : Bool :=
  c.titleSpans.all noRelStr && c.timeElems.all noRelElem &&
    c.timeElems.any hasGoodDataTime

/-- The whole timestamp extraction is clock-independent on such cards. -/
theorem extract_now_indep {c : Card} (h : absCard c = true)
    (n1 n2 : DateTimeT) :
    extractPublishTimestampFast n1 c = extractPublishTimestampFast n2 c := by
  have h3 : ((∀ x ∈ c.titleSpans, noRelStr x = true) ∧
      (∀ x ∈ c.timeElems, noRelElem x = true)) ∧
      ∃ x ∈ c.timeElems, hasGoodDataTime x = true := by
    simpa [absCard, List.all_eq_true, List.any_eq_true] using h
  have h1 := fastStepTitleSpans_indep n1 n2 c.titleSpans h3.1.1
  obtain ⟨h2, h2s⟩ := fastStepTimeElems_indep n1 n2 c.timeElems h3.1.2 h3.2
  unfold extractPublishTimestampFast
  rw [h1, h2]
  cases hx : fastStepTitleSpans n2 c.titleSpans with
  | some v => rfl
  | none =>
    cases hy : fastStepTimeElems n2 c.timeElems with
    | some v => rfl
    | none =>
      rw [h2] at h2s
      rw [hy] at h2s
      exact Bool.noConfusion h2s

/-- C9 (amended): the Listing Parser is deterministic as a function of the
payload **and the clock**: its output depends on the invocation time
through relative date expressions and the unresolved-date fallback.  Two
invocations on the same byte-identical payload yield identical output
lists whenever every collected card resolves its timestamp from an
absolute source (no relative-time text anywhere, and a machine-readable
`data-time` attribute present) — and can differ otherwise, see the
counterexample. -/
theorem parser_deterministic_given_absolute_dates (hash : Str → Int)
    (n1 n2 : DateTimeT) (p : PageHtml)
    (H : ∀ c ∈ collectCards p, absCard c = true) :
    parseVideosFromHtml hash n1 p = parseVideosFromHtml hash n2 p := by
  unfold parseVideosFromHtml
  refine List.filterMap_congr (fun c hc => ?_)
  have hind := extract_now_indep (H c hc) n1 n2
  unfold parseCard
  cases hh : c.href with
  | none => rfl
  | some href => rw [hind]

/-- A card whose timestamp comes from a `data-time` attribute. -/
def dtCard : Card :=
  ⟨some ( "/video/av55".data ), none, ( "t".data ), none, none,
    [], [], [], [⟨( "1700000000".data ), [], []⟩], [], ( "t".data )⟩

/-- The page holding `dtCard`. -/
def dtPage : PageHtml := ⟨[[dtCard]], []⟩

/-- Witness for C9: two invocations six weeks apart parse `dtPage`
identically. -/
theorem parser_deterministic_given_absolute_dates_w :
    parseVideosFromHtml (fun _ => 0) ⟨⟨2024, 1, 15⟩, 0⟩ dtPage =
      parseVideosFromHtml (fun _ => 0) ⟨⟨2024, 3, 2⟩, 7⟩ dtPage :=
  parser_deterministic_given_absolute_dates _ _ _ _ (by decide)

/-- A card whose only date information is the relative text `3小时前`. -/
def relCard : Card :=
  ⟨some ( "/video/av5".data ), none, ( "t".data ), none, none,
    [], [], [], [], [ ( "3小时前".data ) ], ( "t".data )⟩

/-- The page holding `relCard`. -/
def relPage : PageHtml := ⟨[[relCard]], []⟩

/-- C9 (counterexample): invoking the parser twice on the byte-identical
`relPage` payload at two different instants yields different outputs (the
relative expression is resolved against the clock), refuting unconditional
idempotence/determinism. -/
theorem parser_not_deterministic_cex :
    parseVideosFromHtml (fun _ => 0) ⟨⟨2024, 1, 15⟩, 43200⟩ relPage ≠
      parseVideosFromHtml (fun _ => 0) ⟨⟨2024, 1, 16⟩, 43200⟩ relPage := by
  decide

/-! ### Year-less date parsing: symbolic evaluation lemmas -/

/-- A zero-padded two-digit rendering, as the platform prints month and
day fields (`01`, `12`, `29`, …). -/
def mm2 (k : Nat) : Str := [digitChar (k / 10), digitChar (k % 10)]

theorem digitChar_mem (k : Nat) : digitChar k ∈ ( "0123456789".data ) := by
  unfold digitChar
  rcases Nat.lt_or_ge k 10 with h | h
  · interval_cases k <;> decide
  · have hl : ( "0123456789".data ).length ≤ k := by
      have h10 : ( "0123456789".data ).length = 10 := by decide
      omega
    rw [List.getD_eq_default _ _ hl]
    decide

theorem digit_prop {P : Char → Bool}
    (hP : ∀ c ∈ ( "0123456789".data ), P c = true) (k : Nat) :
    P (digitChar k) = true :=
  hP _ (digitChar_mem k)

theorem digitChar_isDigit (k : Nat) : (digitChar k).isDigit = true :=
  digit_prop (by decide) k

theorem digitChar_ne {c : Char} (hc : c ∉ ( "0123456789".data )) (k : Nat) :
    digitChar k ≠ c :=
  fun e => hc (e ▸ digitChar_mem k)

theorem digitChar_val {j : Nat} (h : j < 10) : (digitChar j).toNat = 48 + j := by
  interval_cases j <;> decide

theorem natOfDigits_mm2 {k : Nat} (h : k < 100) : natOfDigits (mm2 k) = k := by
  have h1 : k / 10 < 10 := by omega
  have h2 : k % 10 < 10 := by omega
  unfold natOfDigits mm2
  simp only [List.foldl_cons, List.foldl_nil, digitChar_val h1,
    digitChar_val h2]
  omega

theorem natOfDigits_yearStr {y : Int} (h1 : 1000 ≤ y) (h2 : y ≤ 9999) :
    ((natOfDigits (yearStr y) : Nat) : Int) = y := by
  have k1 : y.toNat / 1000 % 10 < 10 := Nat.mod_lt _ (by omega)
  have k2 : y.toNat / 100 % 10 < 10 := Nat.mod_lt _ (by omega)
  have k3 : y.toNat / 10 % 10 < 10 := Nat.mod_lt _ (by omega)
  have k4 : y.toNat % 10 < 10 := Nat.mod_lt _ (by omega)
  unfold natOfDigits yearStr
  simp only [List.foldl_cons, List.foldl_nil, digitChar_val k1,
    digitChar_val k2, digitChar_val k3, digitChar_val k4]
  omega

theorem yearStr_digits {y : Int} : ∀ c ∈ yearStr y, c.isDigit = true := by
  intro c hc
  simp only [yearStr, List.mem_cons, List.not_mem_nil, or_false] at hc
  rcases hc with rfl | rfl | rfl | rfl <;> exact digitChar_isDigit _

theorem mm2_digits {k : Nat} : ∀ c ∈ mm2 k, c.isDigit = true := by
  intro c hc
  simp only [mm2, List.mem_cons, List.not_mem_nil, or_false] at hc
  rcases hc with rfl | rfl <;> exact digitChar_isDigit _

theorem dropWhile_eq_self_of_all {p : Char → Bool} {l : Str}
    (h : ∀ c ∈ l, p c = false) : l.dropWhile p = l := by
  cases l with
  | nil => rfl
  | cons a t =>
    rw [List.dropWhile_cons, h a (List.mem_cons_self a t)]
    simp

theorem takeWhile_all_append {p : Char → Bool} :
    ∀ l1 : Str, (∀ c ∈ l1, p c = true) → ∀ l2 : Str,
      l2.takeWhile p = [] → (l1 ++ l2).takeWhile p = l1 := by
  intro l1
  induction l1 with
  | nil =>
    intro _ l2 h2
    simpa using h2
  | cons a t ih =>
    intro h l2 h2
    rw [List.cons_append, List.takeWhile_cons,
      h a (List.mem_cons_self a t)]
    simp only [if_true]
    rw [ih (fun c hc => h c (List.mem_cons_of_mem _ hc)) l2 h2]

theorem dropWhile_all_append {p : Char → Bool} :
    ∀ l1 : Str, (∀ c ∈ l1, p c = true) → ∀ l2 : Str,
      l2.dropWhile p = l2 → (l1 ++ l2).dropWhile p = l2 := by
  intro l1
  induction l1 with
  | nil =>
    intro _ l2 h2
    simpa using h2
  | cons a t ih =>
    intro h l2 h2
    rw [List.cons_append, List.dropWhile_cons,
      h a (List.mem_cons_self a t)]
    simp only [if_true]
    exact ih (fun c hc => h c (List.mem_cons_of_mem _ hc)) l2 h2

theorem splitRun_exact (l1 l2 : Str) (h1 : ∀ c ∈ l1, Char.isDigit c = true)
    (ht : l2.takeWhile Char.isDigit = [])
    (hd : l2.dropWhile Char.isDigit = l2) :
    splitRun (l1 ++ l2) = (l1, l2) := by
  unfold splitRun
  rw [takeWhile_all_append l1 h1 l2 ht, dropWhile_all_append l1 h1 l2 hd]

theorem trim_eq_self {s : Str} (h : ∀ c ∈ s, isSpaceChar c = false) :
    trim s = s := by
  unfold trim
  rw [dropWhile_eq_self_of_all h]
  rw [dropWhile_eq_self_of_all (fun c hc => h c (List.mem_reverse.mp hc))]
  exact List.reverse_reverse s

theorem hasSub_head_mem {c : Char} {p s : Str}
    (h : hasSub (c :: p) s = true) : c ∈ s :=
  ((hasSub_iff_substr (c :: p) s).mp h).sublist.subset
    (List.mem_cons_self c p)

/-- Midnight instants have the timestamp of their date. -/
theorem tsOfDT_midnight (dd : DateT) : tsOfDT ⟨dd, 0⟩ = tsOfDate dd := by
  simp [tsOfDT, tsOfDate]

theorem digit_prop_false {P : Char → Bool}
    (hP : ∀ c ∈ ( "0123456789".data ), P c = false) (k : Nat) :
    P (digitChar k) = false :=
  hP _ (digitChar_mem k)

theorem digitChar_not_space (k : Nat) : isSpaceChar (digitChar k) = false :=
  digit_prop_false (by decide) k

theorem takeWhile_cons_false {p : Char → Bool} {a : Char} {l : Str}
    (h : p a = false) : (a :: l).takeWhile p = [] := by
  rw [List.takeWhile_cons, h]
  simp

theorem dropWhile_cons_false {p : Char → Bool} {a : Char} {l : Str}
    (h : p a = false) : (a :: l).dropWhile p = a :: l := by
  rw [List.dropWhile_cons, h]
  simp

theorem mem_mmdd {c : Char} {m d : Nat} {sep : Char}
    (h : c ∈ mm2 m ++ sep :: mm2 d) :
    (∃ k, c = digitChar k) ∨ c = sep := by
  rcases List.mem_append.mp h with h1 | h1
  · left
    simp only [mm2, List.mem_cons, List.not_mem_nil, or_false] at h1
    rcases h1 with rfl | rfl
    exacts [⟨m / 10, rfl⟩, ⟨m % 10, rfl⟩]
  · rcases List.mem_cons.mp h1 with rfl | h2
    · right; rfl
    · left
      simp only [mm2, List.mem_cons, List.not_mem_nil, or_false] at h2
      rcases h2 with rfl | rfl
      exacts [⟨d / 10, rfl⟩, ⟨d % 10, rfl⟩]

theorem not_mem_mmdd {c : Char} {m d : Nat} {sep : Char}
    (hc1 : c ∉ ( "0123456789".data )) (hc2 : c ≠ sep) :
    c ∉ mm2 m ++ sep :: mm2 d := by
  intro hm
  rcases mem_mmdd hm with ⟨k, rfl⟩ | rfl
  · exact hc1 (digitChar_mem k)
  · exact hc2 rfl

theorem hasSub_false_of_head {c : Char} {p s : Str} (h : c ∉ s) :
    hasSub (c :: p) s = false := by
  cases hh : hasSub (c :: p) s with
  | false => rfl
  | true => exact absurd (hasSub_head_mem hh) h

theorem trim_mmdd {m d : Nat} {sep : Char}
    (hsep : sep = '-' ∨ sep = '/') :
    trim (mm2 m ++ sep :: mm2 d) = mm2 m ++ sep :: mm2 d := by
  refine trim_eq_self (fun c hc => ?_)
  rcases mem_mmdd hc with ⟨k, rfl⟩ | rfl
  · exact digitChar_not_space k
  · rcases hsep with rfl | rfl <;> decide

theorem mmdd_no_markers {m d : Nat} {sep : Char}
    (hsep : sep = '-' ∨ sep = '/') :
    hasSub hoursAgoM (mm2 m ++ sep :: mm2 d) = false ∧
    hasSub minutesAgoM (mm2 m ++ sep :: mm2 d) = false ∧
    hasSub daysAgoM (mm2 m ++ sep :: mm2 d) = false ∧
    hasSub monthsAgoM (mm2 m ++ sep :: mm2 d) = false ∧
    hasSub yearsAgoM (mm2 m ++ sep :: mm2 d) = false := by
  have hne : ∀ c : Char, c ∉ ( "0123456789".data ) → c ≠ '-' → c ≠ '/' →
      c ∉ mm2 m ++ sep :: mm2 d := by
    intro c h1 h2 h3
    refine not_mem_mmdd h1 ?_
    rcases hsep with rfl | rfl
    exacts [h2, h3]
  refine ⟨?_, ?_, ?_, ?_, ?_⟩
  · rw [show hoursAgoM = '小' :: ( "时前".data ) from by decide]
    exact hasSub_false_of_head (hne _ (by decide) (by decide) (by decide))
  · rw [show minutesAgoM = '分' :: ( "钟前".data ) from by decide]
    exact hasSub_false_of_head (hne _ (by decide) (by decide) (by decide))
  · rw [show daysAgoM = '天' :: ( "前".data ) from by decide]
    exact hasSub_false_of_head (hne _ (by decide) (by decide) (by decide))
  · rw [show monthsAgoM = '个' :: ( "月前".data ) from by decide]
    exact hasSub_false_of_head (hne _ (by decide) (by decide) (by decide))
  · rw [show yearsAgoM = '年' :: ( "前".data ) from by decide]
    exact hasSub_false_of_head (hne _ (by decide) (by decide) (by decide))

theorem parseTimeString_noRel {now : DateTimeT} {s : Str}
    (ht : trim s = s)
    (h1 : hasSub hoursAgoM s = false) (h2 : hasSub minutesAgoM s = false)
    (h3 : hasSub daysAgoM s = false) (h4 : hasSub monthsAgoM s = false)
    (h5 : hasSub yearsAgoM s = false) :
    parseTimeString now s = parseTimeStringRest now s := by
  simp only [parseTimeString, ht, h1, h2, h3, h4, h5, Bool.false_eq_true,
    if_false]

theorem parseYMD_short {sep' : Char} {s : Str}
    (h : ¬ (s.takeWhile Char.isDigit).length = 4) :
    parseYMD sep' s = none := by
  simp only [parseYMD, splitRun, if_neg h]

theorem parseYMD_mmdd_none (sep' : Char) {m d : Nat} {sep : Char}
    (hsd : sep.isDigit = false) :
    parseYMD sep' (mm2 m ++ sep :: mm2 d) = none := by
  apply parseYMD_short
  rw [takeWhile_all_append (mm2 m) mm2_digits _ (takeWhile_cons_false hsd)]
  simp [mm2]

theorem strptimeDT_mmdd_none (sep' : Char) (fmt : TimeTail) {m d : Nat}
    {sep : Char} (hsd : sep.isDigit = false) :
    strptimeDT sep' fmt (mm2 m ++ sep :: mm2 d) = none := by
  simp only [strptimeDT, parseYMD_mmdd_none sep' hsd]

theorem parseField2_mm2 (lo hi : Nat) {k : Nat} (hk : k < 100)
    (hlo : lo ≤ k) (hhi : k ≤ hi) (l2 : Str)
    (ht : l2.takeWhile Char.isDigit = [])
    (hd : l2.dropWhile Char.isDigit = l2) :
    parseField2 lo hi (mm2 k ++ l2) = some (k, l2) := by
  have hsr := splitRun_exact (mm2 k) l2 mm2_digits ht hd
  have hlen : (mm2 k).length = 2 := by simp [mm2]
  simp only [parseField2, hsr, natOfDigits_mm2 hk, hlen]
  rw [if_pos ⟨by omega, by omega, hlo, hhi⟩]

theorem parseField2_mm2_nil (lo hi : Nat) {k : Nat} (hk : k < 100)
    (hlo : lo ≤ k)
    (hhi : k ≤ hi) : parseField2 lo hi (mm2 k) = some (k, []) := by
  have h := parseField2_mm2 lo hi hk hlo hhi [] rfl rfl
  rwa [List.append_nil] at h

theorem parseYMD_yearless {y : Int} {m d : Nat} (hy1 : 1000 ≤ y)
    (hy2 : y ≤ 9999) (hm1 : 1 ≤ m) (hm2 : m ≤ 12) (hd1 : 1 ≤ d)
    (hd2 : d ≤ 31) :
    parseYMD '-' (yearStr y ++ '-' :: (mm2 m ++ '-' :: mm2 d)) =
      some (y, (m : Int), (d : Int), []) := by
  have hsr := splitRun_exact (yearStr y)
    ('-' :: (mm2 m ++ '-' :: mm2 d)) yearStr_digits
    (takeWhile_cons_false (by decide)) (dropWhile_cons_false (by decide))
  have hlen : (yearStr y).length = 4 := by simp [yearStr]
  have hf1 := parseField2_mm2 1 12 (k := m) (by omega) hm1
    hm2 ('-' :: mm2 d) (takeWhile_cons_false (by decide))
    (dropWhile_cons_false (by decide))
  have hf2 := parseField2_mm2_nil 1 31 (k := d) (by omega) hd1 hd2
  have hys := natOfDigits_yearStr hy1 hy2
  simp [parseYMD, hsr, hlen, hf1, hf2, hys]

theorem parseYMD_yearless_slash {y : Int} {m d : Nat} (hm1 : 1 ≤ m)
    (hm2 : m ≤ 12) :
    parseYMD '-' (yearStr y ++ '-' :: (mm2 m ++ '/' :: mm2 d)) = none := by
  have hsr := splitRun_exact (yearStr y)
    ('-' :: (mm2 m ++ '/' :: mm2 d)) yearStr_digits
    (takeWhile_cons_false (by decide)) (dropWhile_cons_false (by decide))
  have hlen : (yearStr y).length = 4 := by simp [yearStr]
  have hf1 := parseField2_mm2 1 12 (k := m) (by omega) hm1
    hm2 ('/' :: mm2 d) (takeWhile_cons_false (by decide))
    (dropWhile_cons_false (by decide))
  simp [parseYMD, hsr, hlen, hf1]

theorem slashToDash_mmdd {m d : Nat} {sep : Char}
    (hsep : sep = '-' ∨ sep = '/') :
    slashToDash (mm2 m ++ sep :: mm2 d) = mm2 m ++ '-' :: mm2 d := by
  have hdc : ∀ j : Nat,
      (if digitChar j = '/' then '-' else digitChar j) = digitChar j :=
    fun j => if_neg (digitChar_ne (by decide) j)
  simp only [slashToDash, mm2, List.map_append, List.map_cons,
    List.map_nil, hdc]
  rcases hsep with rfl | rfl <;> simp

theorem searchMMDD_dash {m d : Nat} (hm : m < 100) (hd : d < 100) :
    searchMMDD (mm2 m ++ '-' :: mm2 d) = some (m, d) := by
  have h1 := digitChar_isDigit (m / 10)
  have h2 := digitChar_isDigit (m % 10)
  have h3 := digitChar_isDigit (d / 10)
  have h4 := digitChar_isDigit (d % 10)
  have hnm : natOfDigits [digitChar (m / 10), digitChar (m % 10)] = m :=
    natOfDigits_mm2 hm
  have hnd : natOfDigits [digitChar (d / 10), digitChar (d % 10)] = d :=
    natOfDigits_mm2 hd
  show searchMMDD (digitChar (m / 10) :: digitChar (m % 10) :: '-' ::
    digitChar (d / 10) :: digitChar (d % 10) :: []) = some (m, d)
  simp [searchMMDD, tryMMDDAt, greedy2Digits, h1, h2, h3, h4, hnm, hnd]

theorem searchMMDD_slash {m d : Nat} :
    searchMMDD (mm2 m ++ '/' :: mm2 d) = none := by
  have h1 := digitChar_isDigit (m / 10)
  have h2 := digitChar_isDigit (m % 10)
  have h3 := digitChar_isDigit (d / 10)
  have h4 := digitChar_isDigit (d % 10)
  show searchMMDD (digitChar (m / 10) :: digitChar (m % 10) :: '/' ::
    digitChar (d / 10) :: digitChar (d % 10) :: []) = none
  simp [searchMMDD, tryMMDDAt, greedy2Digits, h1, h2, h3, h4]

/-- C10 (counterexample): `02-29` parsed at 2024-01-15.  The current-year
date 2024-02-29 exists and lies in the future, so the claim demands the
previous-year date; but 2023-02-29 does not exist, the `replace(year=...)`
raises `ValueError`, every format and the regex fallback fail, and the
parser returns `0` — neither the current-year nor the previous-year
timestamp. -/
theorem yearless_feb29_cex :
    parseTimeString ⟨⟨2024, 1, 15⟩, 0⟩ ( "02-29".data ) = 0 ∧
    validDateB 2024 2 29 = true ∧
    dtLtB ⟨⟨2024, 1, 15⟩, 0⟩ ⟨⟨2024, 2, 29⟩, 0⟩ = true ∧
    validDateB 2023 2 29 = false ∧
    (0 : Int) ≠ tsOfDate ⟨2024, 2, 29⟩ ∧
    (0 : Int) ≠ tsOfDate ⟨2023, 2, 29⟩ := by decide

/-- C10 (amended): for every year-less `MM sep DD` date expression (dash or
slash separator, zero-padded fields in range, current year four-digit) the
parser assumes the current year unless that places the date in the future
relative to `now`, in which case it assumes the previous year **provided
the previous-year date exists**; when the current-year date does not exist
(e.g. `02-29` outside leap years) or the future date's previous-year
counterpart does not exist (e.g. `02-29` inside a leap year, before
Feb 29), the expression resolves to `0` instead. -/
theorem yearless_date_current_or_previous_year (now : DateTimeT)
    (m d : Nat) (sep : Char) (hsep : sep = '-' ∨ sep = '/')
    (hm : 1 ≤ m ∧ m ≤ 12) (hd : 1 ≤ d ∧ d ≤ 31)
    (hy : 1000 ≤ now.date.y ∧ now.date.y ≤ 9999) :
    parseTimeString now (mm2 m ++ sep :: mm2 d) =
      if validDateB now.date.y (m : Int) (d : Int) then
        (if dtLtB now ⟨⟨now.date.y, (m : Int), (d : Int)⟩, 0⟩ then
          (if validDateB (now.date.y - 1) (m : Int) (d : Int) then
            tsOfDate ⟨now.date.y - 1, (m : Int), (d : Int)⟩
          else 0)
        else tsOfDate ⟨now.date.y, (m : Int), (d : Int)⟩)
      else 0 := by
  obtain ⟨hm1, hm2⟩ := hm
  obtain ⟨hd1, hd2⟩ := hd
  obtain ⟨hy1, hy2⟩ := hy
  obtain ⟨h1, h2, h3, h4, h5⟩ := mmdd_no_markers (m := m) (d := d) hsep
  rw [parseTimeString_noRel (trim_mmdd hsep) h1 h2 h3 h4 h5]
  have hsd : sep.isDigit = false := by rcases hsep with rfl | rfl <;> decide
  have hshort : ∀ sep' fmt,
      strptimeDT sep' fmt (mm2 m ++ sep :: mm2 d) = none :=
    fun sep' fmt => strptimeDT_mmdd_none (m := m) (d := d) sep' fmt hsd
  have hyd := parseYMD_yearless (y := now.date.y) hy1 hy2 hm1 hm2 hd1 hd2
  have ha7 : strptimeDT '-' .toMinute
      (yearStr now.date.y ++ '-' :: (mm2 m ++ '-' :: mm2 d)) = none := by
    simp [strptimeDT, hyd, parseTimeTail]
  have ha8 : strptimeDT '-' .dateOnly
      (yearStr now.date.y ++ '-' :: (mm2 m ++ '-' :: mm2 d)) =
      if validDateB now.date.y (m : Int) (d : Int) then
        some ⟨⟨now.date.y, (m : Int), (d : Int)⟩, 0⟩
      else none := by
    simp [strptimeDT, hyd, parseTimeTail]
  rcases hsep with rfl | rfl
  · have hstd : slashToDash (mm2 m ++ '-' :: mm2 d) =
        mm2 m ++ '-' :: mm2 d := slashToDash_mmdd (Or.inl rfl)
    simp only [parseTimeStringRest, dateFormatsLoop, hstd, hshort, ha7,
      ha8, Option.map_none', Option.none_bind]
    by_cases hv : validDateB now.date.y (m : Int) (d : Int) = true
    · simp only [hv, if_true, Option.some_bind, adjustYearless]
      by_cases hlt :
          dtLtB now ⟨⟨now.date.y, (m : Int), (d : Int)⟩, 0⟩ = true
      · simp only [hlt, if_true]
        by_cases hpv : validDateB (now.date.y - 1) (m : Int) (d : Int) =
            true
        · simp [hpv, firstSome, tsOfDT_midnight]
        · simp [hpv, firstSome, mmddFallback,
            searchMMDD_dash (show m < 100 by omega)
              (show d < 100 by omega),
            adjustYearless, hv, hlt]
      · simp [hlt, firstSome, tsOfDT_midnight]
    · simp [hv, firstSome, mmddFallback,
        searchMMDD_dash (show m < 100 by omega) (show d < 100 by omega)]
  · have hstd : slashToDash (mm2 m ++ '/' :: mm2 d) =
        mm2 m ++ '-' :: mm2 d := slashToDash_mmdd (Or.inr rfl)
    have hys := parseYMD_yearless_slash (y := now.date.y) (d := d) hm1 hm2
    have ha7s : strptimeDT '-' .toMinute
        (yearStr now.date.y ++ '-' :: (mm2 m ++ '/' :: mm2 d)) = none := by
      simp [strptimeDT, hys]
    have ha8s : strptimeDT '-' .dateOnly
        (yearStr now.date.y ++ '-' :: (mm2 m ++ '/' :: mm2 d)) = none := by
      simp [strptimeDT, hys]
    simp only [parseTimeStringRest, dateFormatsLoop, hstd, hshort, ha7s,
      ha8s, ha8, Option.map_none', Option.none_bind]
    by_cases hv : validDateB now.date.y (m : Int) (d : Int) = true
    · simp only [hv, if_true, Option.some_bind, adjustYearless]
      by_cases hlt :
          dtLtB now ⟨⟨now.date.y, (m : Int), (d : Int)⟩, 0⟩ = true
      · simp only [hlt, if_true]
        by_cases hpv : validDateB (now.date.y - 1) (m : Int) (d : Int) =
            true
        · simp [hpv, firstSome, tsOfDT_midnight]
        · simp [hpv, firstSome, mmddFallback, searchMMDD_slash]
      · simp [hlt, firstSome, tsOfDT_midnight]
    · simp [hv, firstSome, mmddFallback, searchMMDD_slash]

/-- Witness for C10: `01-20` parsed at noon 2024-01-15 — a valid
current-year date five days in the future, rolled back to 2023-01-20. -/
theorem yearless_date_current_or_previous_year_w :
    parseTimeString sampleNow (mm2 1 ++ '-' :: mm2 20) =
      if validDateB sampleNow.date.y ((1 : Nat) : Int) ((20 : Nat) : Int)
      then
        (if dtLtB sampleNow
            ⟨⟨sampleNow.date.y, ((1 : Nat) : Int), ((20 : Nat) : Int)⟩, 0⟩
        then
          (if validDateB (sampleNow.date.y - 1) ((1 : Nat) : Int)
              ((20 : Nat) : Int) then
            tsOfDate ⟨sampleNow.date.y - 1, ((1 : Nat) : Int),
              ((20 : Nat) : Int)⟩
          else 0)
        else tsOfDate ⟨sampleNow.date.y, ((1 : Nat) : Int),
          ((20 : Nat) : Int)⟩)
      else 0 :=
  yearless_date_current_or_previous_year sampleNow 1 20 '-' (Or.inl rfl)
    ⟨by omega, by omega⟩ ⟨by omega, by omega⟩ ⟨by decide, by decide⟩

/-! ### Exactness of the binary64 model on integer values -/

theorem bitlenF_zero : ∀ f, bitlenF f 0 = 0
  | 0 => rfl
  | _ + 1 => by simp [bitlenF]

theorem bitlenF_spec :
    ∀ (f n : Nat), 0 < n → n < 2 ^ f →
      2 ^ (bitlenF f n - 1) ≤ n ∧ n < 2 ^ bitlenF f n := by
  intro f
  induction f with
  | zero =>
    intro n h1 h2
    norm_num at h2
    omega
  | succ f ih =>
    intro n h1 h2
    have hn0 : ¬ (n = 0) := by omega
    have hstep : bitlenF (f + 1) n = bitlenF f (n / 2) + 1 := by
      simp [bitlenF, hn0]
    rcases Nat.lt_or_ge n 2 with hsmall | hbig
    · have hn1 : n = 1 := by omega
      subst hn1
      rw [hstep, show (1 : Nat) / 2 = 0 from rfl, bitlenF_zero]
      decide
    · have h1' : 0 < n / 2 := by omega
      have h2' : n / 2 < 2 ^ f := by
        have hp : 2 ^ (f + 1) = 2 * 2 ^ f := by ring
        omega
      obtain ⟨ha, hb⟩ := ih (n / 2) h1' h2'
      have hbpos : 1 ≤ bitlenF f (n / 2) := by
        rcases Nat.eq_zero_or_pos (bitlenF f (n / 2)) with h0 | h0
        · rw [h0] at hb
          norm_num at hb
          omega
        · exact h0
      rw [hstep]
      have e1 : 2 ^ (bitlenF f (n / 2) + 1 - 1) = 2 ^ bitlenF f (n / 2) := by
        norm_num
      have e2 : 2 ^ bitlenF f (n / 2) = 2 * 2 ^ (bitlenF f (n / 2) - 1) := by
        rw [← pow_succ']
        congr 1
        omega
      have e3 : 2 ^ (bitlenF f (n / 2) + 1) = 2 * 2 ^ bitlenF f (n / 2) := by
        ring
      rw [e1, e3, e2]
      rw [e2] at hb
      omega

theorem bitlen_spec {n : Nat} (h1 : 0 < n) (h2 : n < 2 ^ 4400) :
    2 ^ (bitlen n - 1) ≤ n ∧ n < 2 ^ bitlen n :=
  bitlenF_spec 4400 n h1 h2

theorem bitlen_pos {n : Nat} (h1 : 0 < n) (h2 : n < 2 ^ 4400) :
    1 ≤ bitlen n := by
  rcases Nat.eq_zero_or_pos (bitlen n) with h0 | h0
  · have hb := (bitlen_spec h1 h2).2
    rw [h0] at hb
    norm_num at hb
    omega
  · exact h0

theorem bitlen_le {n t : Nat} (h1 : 0 < n) (ht : n < 2 ^ t)
    (htb : t ≤ 4400) : bitlen n ≤ t := by
  have h2 : n < 2 ^ 4400 :=
    lt_of_lt_of_le ht (Nat.pow_le_pow_right (by norm_num) htb)
  obtain ⟨ha, _⟩ := bitlen_spec h1 h2
  by_contra hc
  push_neg at hc
  have hle : 2 ^ t ≤ 2 ^ (bitlen n - 1) :=
    Nat.pow_le_pow_right (by norm_num) (by omega)
  omega

theorem bitlen_unique {n B : Nat} (h2 : n < 2 ^ 4400)
    (hB1 : 2 ^ B ≤ n) (hB2 : n < 2 ^ (B + 1)) : bitlen n = B + 1 := by
  have hp : 0 < 2 ^ B := pow_pos (by norm_num) B
  have h1 : 0 < n := lt_of_lt_of_le hp hB1
  obtain ⟨ha, hb⟩ := bitlen_spec h1 h2
  have hbp := bitlen_pos h1 h2
  rcases Nat.lt_trichotomy (bitlen n) (B + 1) with hlt | heq | hgt
  · have hle : 2 ^ bitlen n ≤ 2 ^ B :=
      Nat.pow_le_pow_right (by norm_num) (by omega)
    omega
  · exact heq
  · have hle : 2 ^ (B + 1) ≤ 2 ^ (bitlen n - 1) :=
      Nat.pow_le_pow_right (by norm_num) (by omega)
    omega

/-- Rounding a dyadic value `c * 2 ^ j` whose odd part fits in 53 bits is
exact: the mantissa is `c` shifted into the mantissa window. -/
theorem rndPos_dyadic {c j : Nat} (h1 : 0 < c) (h2 : c < 2 ^ 53)
    (hj : j ≤ 60) :
    rndPos (c * 2 ^ j) 1 =
      ⟨c * 2 ^ (53 - bitlen c), (bitlen c : Int) + (j : Int) - 53⟩ := by
  have hc4 : c < 2 ^ 4400 :=
    lt_of_lt_of_le h2 (Nat.pow_le_pow_right (by norm_num) (by norm_num))
  obtain ⟨ha, hb⟩ := bitlen_spec h1 hc4
  have hBpos : 1 ≤ bitlen c := bitlen_pos h1 hc4
  have hB53 : bitlen c ≤ 53 := bitlen_le h1 h2 (by norm_num)
  have harg2 : c * 2 ^ j * 2 ^ 1200 < 2 ^ 4400 := by
    have e1 : c * 2 ^ j * 2 ^ 1200 < 2 ^ (53 + j + 1200) := by
      rw [pow_add, pow_add]
      gcongr
    exact lt_of_lt_of_le e1 (Nat.pow_le_pow_right (by norm_num) (by omega))
  have hL : bitlen (c * 2 ^ j * 2 ^ 1200) = bitlen c + j + 1200 := by
    have hlow : 2 ^ (bitlen c - 1 + j + 1200) ≤ c * 2 ^ j * 2 ^ 1200 := by
      rw [pow_add, pow_add]
      gcongr
    have hhigh : c * 2 ^ j * 2 ^ 1200 < 2 ^ (bitlen c - 1 + j + 1200 + 1) := by
      have he : bitlen c - 1 + j + 1200 + 1 = bitlen c + j + 1200 := by omega
      rw [he, pow_add, pow_add]
      gcongr
    have hu := bitlen_unique harg2 hlow hhigh
    omega
  have hL1 : bitlen (c * 2 ^ j * 2 ^ 1200 / 1) - 1 = bitlen c + j + 1199 := by
    rw [Nat.div_one, hL]
    omega
  have hexp : (53 - bitlen c) + (bitlen c + j + 1199) = j + 1252 := by
    omega
  have hNN : c * 2 ^ j * 2 ^ 1252 =
      c * 2 ^ (53 - bitlen c) * (1 * 2 ^ (bitlen c + j + 1199)) := by
    calc c * 2 ^ j * 2 ^ 1252 = c * 2 ^ (j + 1252) := by
          rw [mul_assoc, ← pow_add]
      _ = c * 2 ^ ((53 - bitlen c) + (bitlen c + j + 1199)) := by rw [hexp]
      _ = c * (2 ^ (53 - bitlen c) * 2 ^ (bitlen c + j + 1199)) := by
          rw [pow_add]
      _ = c * 2 ^ (53 - bitlen c) * (1 * 2 ^ (bitlen c + j + 1199)) := by
          ring
  have hDDpos : 0 < 1 * 2 ^ (bitlen c + j + 1199) := by positivity
  have hqv : c * 2 ^ j * 2 ^ 1252 / (1 * 2 ^ (bitlen c + j + 1199)) =
      c * 2 ^ (53 - bitlen c) := by
    rw [hNN]
    exact Nat.mul_div_cancel _ hDDpos
  have hrv : c * 2 ^ j * 2 ^ 1252 % (1 * 2 ^ (bitlen c + j + 1199)) = 0 := by
    rw [hNN]
    exact Nat.mul_mod_left _ _
  have hqlt : c * 2 ^ (53 - bitlen c) < 2 ^ 53 := by
    have e : (2 : Nat) ^ 53 = 2 ^ bitlen c * 2 ^ (53 - bitlen c) := by
      rw [← pow_add]
      congr 1
      omega
    rw [e]
    gcongr
  simp only [rndPos, hL1, hqv, hrv]
  rw [if_neg (show ¬ (2 * 0 > 1 * 2 ^ (bitlen c + j + 1199)) by omega)]
  rw [if_neg (show ¬ (2 * 0 = 1 * 2 ^ (bitlen c + j + 1199)) by omega)]
  rw [if_neg (Nat.ne_of_lt hqlt)]
  simp only [F64.mk.injEq]
  refine ⟨trivial, ?_⟩
  push_cast
  omega

theorem f64OfDec_int {n : Nat} (h1 : 0 < n) (h2 : n < 2 ^ 53) :
    f64OfDec n 1 = ⟨n * 2 ^ (53 - bitlen n), (bitlen n : Int) - 53⟩ := by
  rw [f64OfDec, if_neg (by omega)]
  have h := rndPos_dyadic (c := n) (j := 0) h1 h2 (by norm_num)
  rw [pow_zero, mul_one] at h
  rw [h]
  simp only [F64.mk.injEq]
  refine ⟨trivial, ?_⟩
  push_cast
  ring

/-- `int(float(n) * k)` is exactly `n * k` whenever the product fits in 53
bits: integers are represented exactly and the product rounds to itself. -/
theorem f64_int_mul_exact (n k : Nat) (h : n * k < 2 ^ 53) :
    f64Trunc (f64MulNat (f64OfDec n 1) k) = n * k := by
  rcases Nat.eq_zero_or_pos n with rfl | hn
  · simp [f64OfDec, f64MulNat, f64Trunc]
  rcases Nat.eq_zero_or_pos k with rfl | hk
  · simp [f64MulNat, f64Trunc]
  have hn53 : n < 2 ^ 53 := by
    have hle : n ≤ n * k := Nat.le_mul_of_pos_right n hk
    omega
  rw [f64OfDec_int hn hn53]
  have hn4 : n < 2 ^ 4400 :=
    lt_of_lt_of_le hn53 (Nat.pow_le_pow_right (by norm_num) (by norm_num))
  have hBpos : 1 ≤ bitlen n := bitlen_pos hn hn4
  have hB53 : bitlen n ≤ 53 := bitlen_le hn hn53 (by norm_num)
  have hMpos : 0 < n * 2 ^ (53 - bitlen n) := by positivity
  simp only [f64MulNat]
  rw [if_neg (by push_neg; exact ⟨by omega, by omega⟩)]
  have hM : n * 2 ^ (53 - bitlen n) * k = n * k * 2 ^ (53 - bitlen n) := by
    ring
  rw [hM, rndPos_dyadic (c := n * k) (j := 53 - bitlen n) (by positivity) h
    (by omega)]
  have hnk1 : 0 < n * k := by positivity
  have hnk4 : n * k < 2 ^ 4400 :=
    lt_of_lt_of_le h (Nat.pow_le_pow_right (by norm_num) (by norm_num))
  have hK53 : bitlen (n * k) ≤ 53 := bitlen_le hnk1 h (by norm_num)
  have hKpos : 1 ≤ bitlen (n * k) := bitlen_pos hnk1 hnk4
  simp only [f64Trunc]
  have hE : ((bitlen (n * k) : Int) + ((53 - bitlen n : Nat) : Int) - 53) +
      ((bitlen n : Int) - 53) = (bitlen (n * k) : Int) - 53 := by
    omega
  rw [hE]
  by_cases h53 : bitlen (n * k) = 53
  · rw [h53]
    norm_num
  · rw [if_neg (by omega)]
    have htn : (-((bitlen (n * k) : Int) - 53)).toNat = 53 - bitlen (n * k) :=
      by omega
    rw [htn]
    exact Nat.mul_div_cancel _ (by positivity)

theorem dropWhile_all_nil {p : Char → Bool} :
    ∀ l : Str, (∀ c ∈ l, p c = true) → l.dropWhile p = [] := by
  intro l
  induction l with
  | nil => intro _; rfl
  | cons a t ih =>
    intro h
    rw [List.dropWhile_cons, h a (List.mem_cons_self a t)]
    simp only [if_true]
    exact ih (fun c hc => h c (List.mem_cons_of_mem _ hc))

theorem decScale_digits {s : Str} (h : ∀ c ∈ s, c.isDigit = true) :
    decScale s = 1 := by
  have hd : s.dropWhile (fun c => decide (c ≠ '.')) = [] := by
    apply dropWhile_all_nil
    intro c hc
    have hdig := h c hc
    simp only [decide_eq_true_eq]
    intro e
    subst e
    exact absurd hdig (by decide)
  unfold decScale
  rw [hd]
  simp

theorem decMant_digits {s : Str} (h : ∀ c ∈ s, c.isDigit = true) :
    decMant s = natOfDigits s := by
  unfold decMant
  congr 1
  rw [List.filter_eq_self]
  intro a ha
  have hdig := h a ha
  simp only [decide_eq_true_eq]
  intro e
  subst e
  exact absurd hdig (by decide)

theorem decOK_of_digits {s : Str} (hne : s ≠ [])
    (h : ∀ c ∈ s, c.isDigit = true) : decOK s = true := by
  have h1 : s.isEmpty = false := by
    cases s with
    | nil => exact absurd rfl hne
    | cons a t => rfl
  have h2 : s.all (fun c => c.isDigit || c = '.') = true := by
    rw [List.all_eq_true]
    intro c hc
    simp [h c hc]
  have h3 : s.count '.' = 0 := by
    rw [List.count_eq_zero]
    intro hm
    exact absurd (h '.' hm) (by decide)
  have h4 : s.any (fun c => c.isDigit) = true := by
    cases s with
    | nil => exact absurd rfl hne
    | cons a t => simp [h a (List.mem_cons_self a t)]
  simp [decOK, h1, h2, h3, h4]

theorem decTimes_digits {s : Str}
    (hdig : ∀ c ∈ s, c.isDigit = true) (k : Nat)
    (hk : natOfDigits s * k < 2 ^ 53) :
    decTimes s k = ((natOfDigits s * k : ℕ) : ℤ) := by
  unfold decTimes
  rw [decMant_digits hdig, decScale_digits hdig, f64_int_mul_exact _ _ hk]

/-- C3 (counterexample): the claim's "decimal value times the multiplier"
reading is idealized.  The source computes `int(float(num_str) * 10000)`
in IEEE doubles: `float("8.29")` is the double just below 8.29, its product
with 10000 rounds to `82899.99999999999`, and `int()` truncates to 82899 —
one below the exact `decValue * 10^4 = 82900` the claim demands. -/
theorem stats_float_rounding_cex :
    parseStatsNumber ( "8.29万".data ) = 82899 ∧
    ratTrunc (decValue ( "8.29".data ) * 10000) = 82900 ∧
    (82899 : ℤ) ≠ 82900 := by
  refine ⟨by decide, ?_, by decide⟩
  have h1 : decMant ( "8.29".data ) = 829 := by decide
  have h2 : decScale ( "8.29".data ) = 100 := by decide
  have hv : decValue ( "8.29".data ) * (10000 : ℚ) =
      ((829 * 10000 : ℕ) : ℚ) / ((100 : ℕ) : ℚ) := by
    unfold decValue
    rw [h1, h2]
    push_cast
    ring
  rw [hv, ratTrunc_natCast_div]
  decide

/-- C3 (amended): the four magnitude suffixes multiply the **binary64**
value of the numeric prefix by 10^4 (万), 10^3 (千), 10^2 (百) and 10^8
(亿), truncating with `int()`.  For integer prefixes whose scaled value
stays below 2^53 the double arithmetic is exact and the result is exactly
the prefix value times the multiplier; fractional prefixes can come out
one below the exact product (see the counterexample).  In particular
`"5万"` parses to exactly 50000, `"3千"` to 3000, `"2百"` to 200 and
`"1亿"` to 100000000. -/
theorem stats_magnitude_suffix_float_parsing (s : Str) (hne : s ≠ [])
    (hdig : ∀ c ∈ s, c.isDigit = true)
    (hb : natOfDigits s * 100000000 < 2 ^ 53) :
    (parseStatsNumber (s ++ [ '万' ]) = ((natOfDigits s * 10000 : ℕ) : ℤ) ∧
     parseStatsNumber (s ++ [ '千' ]) = ((natOfDigits s * 1000 : ℕ) : ℤ) ∧
     parseStatsNumber (s ++ [ '百' ]) = ((natOfDigits s * 100 : ℕ) : ℤ) ∧
     parseStatsNumber (s ++ [ '亿' ]) =
       ((natOfDigits s * 100000000 : ℕ) : ℤ)) ∧
    parseStatsNumber ( "5万".data ) = 50000 ∧
    parseStatsNumber ( "3千".data ) = 3000 ∧
    parseStatsNumber ( "2百".data ) = 200 ∧
    parseStatsNumber ( "1亿".data ) = 100000000 := by
  have h : decOK s = true := decOK_of_digits hne hdig
  have hcd := decOK_digit_or_dot h
  have hne' := decOK_ne_empty h
  have hmono : ∀ k : Nat, k ≤ 100000000 → natOfDigits s * k < 2 ^ 53 :=
    fun k hk => lt_of_le_of_lt (Nat.mul_le_mul_left _ hk) hb
  have notin : ∀ u : Char, u.isDigit = false → u ≠ '.' →
      ∀ u2 : Char, u ≠ u2 → u ∉ s ++ [u2] := by
    intro u hu1 hu2 u2 hne12 hm
    rcases List.mem_append.1 hm with hm | hm
    · exact not_mem_of_digit_dot hcd hu1 hu2 hm
    · rw [List.mem_singleton] at hm
      exact hne12 hm
  refine ⟨⟨?_, ?_, ?_, ?_⟩, by decide, by decide, by decide, by decide⟩
  · simp only [parseStatsNumber]
    rw [filter_statsKeep_eq hcd (by decide)]
    rw [if_pos (List.mem_append_right _ (List.mem_singleton_self _))]
    rw [filter_erase_unit hcd (by decide) (by decide)]
    rw [if_pos (by simp [hne', h])]
    exact decTimes_digits hdig 10000 (hmono 10000 (by norm_num))
  · simp only [parseStatsNumber]
    rw [filter_statsKeep_eq hcd (by decide)]
    rw [if_neg (notin '万' (by decide) (by decide) '千' (by decide))]
    rw [if_pos (List.mem_append_right _ (List.mem_singleton_self _))]
    rw [filter_erase_unit hcd (by decide) (by decide)]
    rw [if_pos (by simp [hne', h])]
    exact decTimes_digits hdig 1000 (hmono 1000 (by norm_num))
  · simp only [parseStatsNumber]
    rw [filter_statsKeep_eq hcd (by decide)]
    rw [if_neg (notin '万' (by decide) (by decide) '百' (by decide))]
    rw [if_neg (notin '千' (by decide) (by decide) '百' (by decide))]
    rw [if_pos (List.mem_append_right _ (List.mem_singleton_self _))]
    rw [filter_erase_unit hcd (by decide) (by decide)]
    rw [if_pos (by simp [hne', h])]
    exact decTimes_digits hdig 100 (hmono 100 (by norm_num))
  · simp only [parseStatsNumber]
    rw [filter_statsKeep_eq hcd (by decide)]
    rw [if_neg (notin '万' (by decide) (by decide) '亿' (by decide))]
    rw [if_neg (notin '千' (by decide) (by decide) '亿' (by decide))]
    rw [if_neg (notin '百' (by decide) (by decide) '亿' (by decide))]
    rw [if_pos (List.mem_append_right _ (List.mem_singleton_self _))]
    rw [filter_erase_unit hcd (by decide) (by decide)]
    rw [if_pos (by simp [hne', h])]
    exact decTimes_digits hdig 100000000 (hmono 100000000 (by norm_num))

/-- Witness for C3: the general part applied to the integer token `"5"`. -/
theorem stats_magnitude_suffix_float_parsing_w :
    parseStatsNumber ( "5".data ++ [ '万' ] ) =
      ((natOfDigits ( "5".data ) * 10000 : ℕ) : ℤ) :=
  ((stats_magnitude_suffix_float_parsing ( "5".data ) (by decide)
    (by decide) (by decide)).1).1

end Crawler
